import Mathlib

/-!
A shallow embedding of the decision-tree unit in `src/io/tree.cpp` (namespace
`LightGBM`, class `Tree`): an array-backed binary tree grown by leaf-wise
splitting, with batch scoring, a line-oriented `key=value` text serialization,
and a JSON export.

Modelling conventions:
* C++ `std::vector` members become Lean `List` fields; element reads use
  `List.getD` and writes use `List.set`, mirroring the source's unchecked
  indexing (theorems carry the in-range hypotheses the C++ caller contract
  assumes).
* Machine integers (`int`, `int8_t`, `data_size_t`, `unsigned int`) become
  `Int` or `Nat`; no arithmetic in the verified operations can overflow the
  modelled ranges.
* `float`-valued fields (`threshold_`, `split_gain_`, `leaf_value_`,
  `internal_value_`) are modelled as `Int`: the verified properties only
  store, move, compare and render these values, never do float arithmetic
  on them, and the helpers `Common::ArrayToString` / `Common::StringToArray`
  (whose sources are not part of this excerpt) are modelled from the spec as
  an exact, parseable numeric text form.
* C++ strings are modelled as `List Char`.
* The bitwise complement `~x` on a signed integer is `-x - 1` (`cnot`).
-/

namespace LightGBM

/-- The two bin kinds dispatched on by `Tree::Split` when deriving
`decision_type_` (numerical bins store 0, categorical bins store 1). -/
inductive BinType where
  | NumericalBin : BinType
  | CategoricalBin : BinType
deriving DecidableEq, Repr

/-- C++ bitwise complement `~x` on a signed integer: `~x = -x - 1`. -/
def cnot (x : Int) : Int := -x - 1

/-- The tree data model: all per-node / per-leaf attributes live in parallel
lists indexed by a small integer id, exactly the member arrays of class
`Tree` in `src/io/tree.cpp`. -/
structure Tree where
  max_leaves_ : Nat
  num_leaves_ : Nat
  left_child_ : List Int
  right_child_ : List Int
  split_feature_ : List Int
  split_feature_real_ : List Int
  threshold_in_bin_ : List Int
  threshold_ : List Int
  decision_type_ : List Int
  split_gain_ : List Int
  leaf_parent_ : List Int
  leaf_value_ : List Int
  leaf_count_ : List Int
  internal_value_ : List Int
  internal_count_ : List Int
  leaf_depth_ : List Int
deriving DecidableEq, Repr

/-- `Tree::Tree(int max_leaves)`: allocate all parallel arrays
(zero-initialized, as `std::vector` value-initializes), then set
`leaf_depth_[0] = 1`, `num_leaves_ = 1`, `leaf_parent_[0] = -1`. -/
def Tree.new (max_leaves : Nat) : Tree where
  max_leaves_ := max_leaves
  num_leaves_ := 1
  left_child_ := List.replicate (max_leaves - 1) 0
  right_child_ := List.replicate (max_leaves - 1) 0
  split_feature_ := List.replicate (max_leaves - 1) 0
  split_feature_real_ := List.replicate (max_leaves - 1) 0
  threshold_in_bin_ := List.replicate (max_leaves - 1) 0
  threshold_ := List.replicate (max_leaves - 1) 0
  decision_type_ := List.replicate (max_leaves - 1) 0
  split_gain_ := List.replicate (max_leaves - 1) 0
  leaf_parent_ := (List.replicate max_leaves 0).set 0 (-1)
  leaf_value_ := List.replicate max_leaves 0
  leaf_count_ := List.replicate max_leaves 0
  internal_value_ := List.replicate (max_leaves - 1) 0
  internal_count_ := List.replicate (max_leaves - 1) 0
  leaf_depth_ := (List.replicate max_leaves 0).set 0 1

/-- `Tree::Split`, translated statement by statement (same evaluation order,
in particular `internal_value_[new_node_idx]` reads `leaf_value_[leaf]`
before it is overwritten, and the parent's child link is patched before the
new node's own child links are written).  Returns the updated tree together
with the C++ return value `num_leaves_ - 1` (computed after the increment,
i.e. the new leaf's id). -/
def Tree.Split (t : Tree) (leaf : Nat) (feature : Int) (bin_type : BinType)
    (threshold_bin : Int) (real_feature : Int) (threshold_float : Int)
    (left_value : Int) (right_value : Int) (left_cnt : Int) (right_cnt : Int)
    (gain : Int) : Tree × Nat :=
  let new_node_idx : Nat := t.num_leaves_ - 1
  let parent : Int := t.leaf_parent_.getD leaf 0
  -- update parent info: if cur node is left child patch left, else right
  let lc0 : List Int :=
    if 0 ≤ parent ∧ t.left_child_.getD parent.toNat 0 = cnot leaf then
      t.left_child_.set parent.toNat (new_node_idx : Int)
    else t.left_child_
  let rc0 : List Int :=
    if 0 ≤ parent ∧ ¬ t.left_child_.getD parent.toNat 0 = cnot leaf then
      t.right_child_.set parent.toNat (new_node_idx : Int)
    else t.right_child_
  let ld1 : List Int :=
    t.leaf_depth_.set t.num_leaves_ (t.leaf_depth_.getD leaf 0 + 1)
  let t' : Tree :=
    { t with
      split_feature_ := t.split_feature_.set new_node_idx feature
      split_feature_real_ := t.split_feature_real_.set new_node_idx real_feature
      threshold_in_bin_ := t.threshold_in_bin_.set new_node_idx threshold_bin
      threshold_ := t.threshold_.set new_node_idx threshold_float
      decision_type_ :=
        t.decision_type_.set new_node_idx
          (if bin_type = BinType.NumericalBin then 0 else 1)
      split_gain_ := t.split_gain_.set new_node_idx gain
      -- add two new leaves
      left_child_ := lc0.set new_node_idx (cnot leaf)
      right_child_ := rc0.set new_node_idx (cnot t.num_leaves_)
      -- update new leaves
      leaf_parent_ :=
        (t.leaf_parent_.set leaf (new_node_idx : Int)).set t.num_leaves_
          (new_node_idx : Int)
      -- save current leaf value to internal node before change
      internal_value_ :=
        t.internal_value_.set new_node_idx (t.leaf_value_.getD leaf 0)
      internal_count_ :=
        t.internal_count_.set new_node_idx (left_cnt + right_cnt)
      leaf_value_ :=
        (t.leaf_value_.set leaf left_value).set t.num_leaves_ right_value
      leaf_count_ :=
        (t.leaf_count_.set leaf left_cnt).set t.num_leaves_ right_cnt
      -- update leaf depth
      leaf_depth_ := ld1.set leaf (ld1.getD leaf 0 + 1)
      num_leaves_ := t.num_leaves_ + 1 }
  (t', t.num_leaves_)

/-- The argument record of one `Tree::Split` call (everything but the tree). -/
structure SplitOp where
  leaf : Nat
  feature : Int
  bin_type : BinType
  threshold_bin : Int
  real_feature : Int
  threshold : Int
  left_value : Int
  right_value : Int
  left_cnt : Int
  right_cnt : Int
  gain : Int
deriving DecidableEq, Repr

/-- Apply one recorded `Split` call. -/
def Tree.applyOp (t : Tree) (o : SplitOp) : Tree × Nat :=
  t.Split o.leaf o.feature o.bin_type o.threshold_bin o.real_feature
    o.threshold o.left_value o.right_value o.left_cnt o.right_cnt o.gain

/-- Apply a sequence of recorded `Split` calls, left to right. -/
def Tree.applySplits (t : Tree) (ops : List SplitOp) : Tree :=
  ops.foldl (fun t o => (t.applyOp o).1) t

/-- A `Split` call is valid on a tree when it targets a currently-live leaf
and capacity is not yet exhausted (the documented caller contract). -/
def Tree.validOp (t : Tree) (o : SplitOp) : Bool :=
  decide (o.leaf < t.num_leaves_) && decide (t.num_leaves_ < t.max_leaves_)

/-- A sequence of `Split` calls is valid when each call is valid on the
tree state it is applied to. -/
def Tree.validSeq (t : Tree) : List SplitOp → Bool
  | [] => true
  | o :: rest => t.validOp o && (t.applyOp o).1.validSeq rest

/-- The internal-node index written by each `Split` call of a sequence
(the `new_node_idx = num_leaves_ - 1` of the call). -/
def Tree.splitTrace (t : Tree) : List SplitOp → List Nat
  | [] => []
  | o :: rest => (t.num_leaves_ - 1) :: (t.applyOp o).1.splitTrace rest

/-- Modelled from the spec: the dataset collaborator (§6) supplies a feature
count and, per row and feature, the binned feature value fetched during
traversal; its source (`Dataset`, `BinIterator`) is not part of this
excerpt. -/
structure DatasetModel where
  num_features : Nat
  value : Nat → Nat → Int

/-- Modelled from the spec (§4.3): the decision dispatch table indexed by the
`decision_type_` discriminant — 0 selects the numerical decision
(value ≤ threshold routes left), 1 the categorical decision (equal routes
right, not-equal routes left); the table itself lives in `tree.h`, outside
this excerpt. -/
def innerDecision (dtype : Int) (value : Int) (threshold : Int) : Bool :=
  if dtype = 0 then value ≤ threshold else ¬ value = threshold

/-- Modelled from the spec (§4.4): the traversal loop of `Tree::GetLeaf`
(declared in `tree.h`, outside this excerpt): follow child references while
non-negative, evaluating each internal node's decision on the row's binned
feature value; a negative reference decodes to the leaf id via the
complement convention.  The loop is bounded by fuel (the C++ loop terminates
because a well-formed tree is acyclic). -/
def Tree.getLeafFrom (t : Tree) (d : DatasetModel) (row : Nat) :
    Nat → Int → Nat
  | 0, _ => 0
  | fuel + 1, node =>
    if node < 0 then (cnot node).toNat
    else
      let idx := node.toNat
      let v := d.value row (t.split_feature_.getD idx 0).toNat
      let goLeft :=
        innerDecision (t.decision_type_.getD idx 0) v
          (t.threshold_in_bin_.getD idx 0)
      t.getLeafFrom d row fuel
        (if goLeft then t.left_child_.getD idx 0 else t.right_child_.getD idx 0)

/-- Modelled from the spec (§4.4): `Tree::GetLeaf` starts at internal node 0,
or returns leaf 0 immediately if the tree has never been split; `num_leaves_`
steps of fuel bound the traversal (the depth of a tree with `n` leaves is at
most `n`). -/
def Tree.GetLeaf (t : Tree) (d : DatasetModel) (row : Nat) : Nat :=
  if t.num_leaves_ = 1 then 0 else t.getLeafFrom d row t.num_leaves_ 0

/-- One row's contribution in `Tree::AddPredictionToScore`:
`score[i] += leaf_value_[GetLeaf(i)]` (accumulate, never overwrite). -/
def Tree.scoreRow (t : Tree) (d : DatasetModel) (score : List Int)
    (i : Nat) : List Int :=
  score.set i (score.getD i 0 + t.leaf_value_.getD (t.GetLeaf d i) 0)

/-- Modelled from the spec (§4.5, §5): `Threading::For` (source outside this
excerpt) partitions the row range into contiguous chunks `(start, end)` and
runs the body on each chunk independently; chunk results compose because
each row's output slot is disjoint.  `Tree::AddPredictionToScore` over the
full dataset, with an explicit chunk list standing for the thread
partition. -/
def Tree.AddPredictionToScore (t : Tree) (d : DatasetModel)
    (chunks : List (Nat × Nat)) (score : List Int) : List Int :=
  chunks.foldl
    (fun sc p => (List.range' p.1 (p.2 - p.1)).foldl (t.scoreRow d) sc) score

/-- The subset overload of `Tree::AddPredictionToScore`: chunk positions
index into `used_data_indices`, and each processed row is
`used_data_indices[j]`. -/
def Tree.AddPredictionToScoreSub (t : Tree) (d : DatasetModel)
    (used_data_indices : List Nat) (chunks : List (Nat × Nat))
    (score : List Int) : List Int :=
  chunks.foldl
    (fun sc p =>
      (List.range' p.1 (p.2 - p.1)).foldl
        (fun sc j => t.scoreRow d sc (used_data_indices.getD j 0)) sc) score

/-- The sequential reference semantics the spec states for batch scoring:
for every row `i` in `[0, num_data)` in order, compute `GetLeaf` for row `i`
and add that leaf's value to `score[i]`. -/
def Tree.seqAddPrediction (t : Tree) (d : DatasetModel) (num_data : Nat)
    (score : List Int) : List Int :=
  (List.range num_data).foldl (t.scoreRow d) score

/-- The sequential reference semantics for the subset overload: process the
given row indices in order. -/
def Tree.seqAddPredictionSub (t : Tree) (d : DatasetModel)
    (used_data_indices : List Nat) (score : List Int) : List Int :=
  used_data_indices.foldl (t.scoreRow d) score

/-- A chunk list is a partition of `[0, n)` into consecutive contiguous
ranges: flattening the ranges in order yields exactly `0, 1, ..., n-1`. -/
def chunksPartition (chunks : List (Nat × Nat)) (n : Nat) : Prop :=
  (chunks.map fun p => List.range' p.1 (p.2 - p.1)).flatten = List.range n

/-- The shape of one object emitted by `Tree::NodeToJSON`: an internal-node
object with split metadata and two nested children, or a leaf object.
`decision_type` carries the raw discriminant stored in `decision_type_`. -/
inductive JsonNode where
  | internal (split_index : Nat) (split_feature : Int) (split_gain : Int)
      (threshold : Int) (decision_type : Int) (internal_value : Int)
      (internal_count : Int) (left : JsonNode) (right : JsonNode) : JsonNode
  | leaf (leaf_index : Nat) (leaf_parent : Int) (leaf_value : Int)
      (leaf_count : Int) : JsonNode
deriving DecidableEq, Repr

/-- `Tree::NodeToJSON(index)`: if `index >= 0` emit an internal-node object,
recursing into `left_child_[index]` / `right_child_[index]`; otherwise
decode `~index` and emit a leaf object.  The C++ recursion has no
termination guard; the fuel parameter makes it total, with `none` standing
for a recursion that never bottoms out (the C++ program recurses forever /
overflows the stack there). -/
def Tree.NodeToJSON (t : Tree) : Nat → Int → Option JsonNode
  | 0, _ => none
  | fuel + 1, index =>
    if 0 ≤ index then
      match t.NodeToJSON fuel (t.left_child_.getD index.toNat 0),
          t.NodeToJSON fuel (t.right_child_.getD index.toNat 0) with
      | some l, some r =>
        some (JsonNode.internal index.toNat
          (t.split_feature_real_.getD index.toNat 0)
          (t.split_gain_.getD index.toNat 0)
          (t.threshold_.getD index.toNat 0)
          (t.decision_type_.getD index.toNat 0)
          (t.internal_value_.getD index.toNat 0)
          (t.internal_count_.getD index.toNat 0) l r)
      | _, _ => none
    else
      let li := (cnot index).toNat
      some (JsonNode.leaf li (t.leaf_parent_.getD li 0)
        (t.leaf_value_.getD li 0) (t.leaf_count_.getD li 0))

/-- The structured content emitted by `Tree::ToJSON`. -/
structure JsonTree where
  num_leaves : Nat
  tree_structure : Option JsonNode
deriving DecidableEq, Repr

/-- `Tree::ToJSON`: emit `num_leaves` and the `tree_structure` object built
by `NodeToJSON(0)` — unconditionally, with no special case for an unsplit
tree. -/
def Tree.ToJSON (t : Tree) (fuel : Nat) : JsonTree :=
  { num_leaves := t.num_leaves_, tree_structure := t.NodeToJSON fuel 0 }

/-- Fuel-indexed digit extraction (structural recursion, so that concrete
serializations evaluate inside the kernel). -/
def natDigitsRevAux : Nat → Nat → List Nat
  | 0, _ => []
  | fuel + 1, n => if n = 0 then [] else n % 10 :: natDigitsRevAux fuel (n / 10)

/-- The decimal digits of `n`, least significant first (empty for 0). -/
def natDigitsRev (n : Nat) : List Nat := natDigitsRevAux n n

/-- Modelled from the spec (§4.6): numbers are rendered to a parseable
decimal text form; for a natural number, its decimal digit characters. -/
def natToChars (n : Nat) : List Char :=
  if n = 0 then ['0'] else (natDigitsRev n).reverse.map Nat.digitChar

/-- Modelled from the spec (§4.6): rendering of a (possibly negative)
number: a leading minus sign followed by the decimal digits. -/
def intToChars (i : Int) : List Char :=
  if i < 0 then '-' :: natToChars i.natAbs else natToChars i.toNat

/-- Decimal digit accumulation over characters (the core of the modelled
`Common::Atoi` / `Common::StringToArray` number parsing). -/
def charsToNat (s : List Char) : Nat :=
  s.foldl (fun a c => a * 10 + (c.toNat - 48)) 0

/-- Modelled from the spec (§4.6): parse a decimal integer, an optional
leading minus sign followed by digits (`Common::Atoi` is outside this
excerpt). -/
def charsToInt (s : List Char) : Int :=
  match s with
  | [] => 0
  | c :: rest => if c = '-' then -(charsToNat rest : Int) else (charsToNat s : Int)

/-- Join token lists with a single separator character between consecutive
tokens. -/
def joinWithChar (c : Char) : List (List Char) → List Char
  | [] => []
  | [x] => x
  | x :: y :: rest => x ++ c :: joinWithChar c (y :: rest)

/-- Modelled from the spec (§4.6): `Common::ArrayToString(arr, n, ' ')`
renders the first `n` entries as a space-joined sequence. -/
def arrayToChars (l : List Int) (n : Nat) : List Char :=
  joinWithChar ' ' ((l.take n).map intToChars)

/-- Split a character list at every occurrence of `c` (the line and token
splitting used by the modelled `Common::Split` on `'\n'` and by
`Common::StringToArray` on `' '`); adjacent delimiters produce empty
parts, which the callers skip or never encounter. -/
def splitOnChar (c : Char) : List Char → List (List Char)
  | [] => [[]]
  | x :: xs =>
    if x = c then [] :: splitOnChar c xs
    else
      match splitOnChar c xs with
      | [] => [[x]]
      | p :: ps => (x :: p) :: ps

/-- Modelled from the spec (§4.6): `Common::StringToArray(str, ' ', n)`
parses a space-joined sequence to its implied fixed length `n` (missing
entries default to zero). -/
def charsToArray (s : List Char) (n : Nat) : List Int :=
  let v := (splitOnChar ' ' s).map charsToInt
  v.take n ++ List.replicate (n - v.length) 0

/-- Modelled from the spec (§4.6): split a line at the first `'='`,
yielding two parts when the delimiter occurs and one part otherwise
(the `tmp_strs.size() == 2` check in the deserializing constructor then
recognizes exactly the lines containing a `'='`). -/
def splitFirstOn (c : Char) : List Char → List (List Char)
  | [] => [[]]
  | x :: xs =>
    if x = c then [[], xs]
    else
      match splitFirstOn c xs with
      | [] => [[x]]
      | [p] => [x :: p]
      | p :: q :: _ => [x :: p, q]

/-- A whitespace character for the modelled `Common::Trim`. -/
def isSpaceChar (c : Char) : Bool :=
  c = ' ' ∨ c = '\t' ∨ c = '\r' ∨ c = '\n'

/-- Modelled from the spec (§4.6): `Common::Trim` removes whitespace from
both ends. -/
def trimChars (s : List Char) : List Char :=
  ((s.dropWhile isSpaceChar).reverse.dropWhile isSpaceChar).reverse

/-- Process one line of serialized text into the key→value map, as the
deserializing constructor does: split on `'='`, require exactly two parts,
trim both, require both nonempty, else skip the line silently.  The map is
a cons list where the most recent insertion for a key shadows older ones
(the overwrite semantics of `unordered_map`). -/
def ingestLine (m : List (List Char × List Char)) (line : List Char) :
    List (List Char × List Char) :=
  let parts := splitFirstOn '=' line
  if parts.length = 2 then
    let key := trimChars (parts.getD 0 [])
    let val := trimChars (parts.getD 1 [])
    if key ≠ [] ∧ val ≠ [] then (key, val) :: m else m
  else m

/-- Build the key→value map from serialized text: split into lines on
`'\n'` and ingest each line. -/
def buildKeyVals (s : List Char) : List (List Char × List Char) :=
  (splitOnChar '\n' s).foldl ingestLine []

/-- Look a key up in the map (first match wins, i.e. the most recent
insertion). -/
def lookupKV (m : List (List Char × List Char)) (k : List Char) :
    Option (List Char) :=
  match m with
  | [] => none
  | (k', v) :: rest => if k' = k then some v else lookupKV rest k

/-- The twelve keys the deserializing constructor requires. -/
def requiredKeys : List (List Char) :=
  ["num_leaves".toList, "split_feature".toList, "split_gain".toList,
   "threshold".toList, "left_child".toList, "right_child".toList,
   "leaf_parent".toList, "leaf_value".toList, "internal_value".toList,
   "internal_count".toList, "leaf_count".toList, "decision_type".toList]

/-- One `key=value` line of `Tree::ToString` (terminated by `std::endl`). -/
def kvLine (key : List Char) (val : List Char) : List Char :=
  key ++ '=' :: (val ++ ['\n'])

/-- `Tree::ToString`: one `key=value` line per persisted attribute —
internal-node arrays over `num_leaves_ - 1` entries, leaf arrays over
`num_leaves_` entries — followed by a blank line.  `leaf_depth_`,
`threshold_in_bin_` and the binned `split_feature_` are not emitted. -/
def Tree.ToString (t : Tree) : List Char :=
  kvLine "num_leaves".toList (intToChars t.num_leaves_) ++
  kvLine "split_feature".toList (arrayToChars t.split_feature_real_ (t.num_leaves_ - 1)) ++
  kvLine "split_gain".toList (arrayToChars t.split_gain_ (t.num_leaves_ - 1)) ++
  kvLine "threshold".toList (arrayToChars t.threshold_ (t.num_leaves_ - 1)) ++
  kvLine "decision_type".toList (arrayToChars t.decision_type_ (t.num_leaves_ - 1)) ++
  kvLine "left_child".toList (arrayToChars t.left_child_ (t.num_leaves_ - 1)) ++
  kvLine "right_child".toList (arrayToChars t.right_child_ (t.num_leaves_ - 1)) ++
  kvLine "leaf_parent".toList (arrayToChars t.leaf_parent_ t.num_leaves_) ++
  kvLine "leaf_value".toList (arrayToChars t.leaf_value_ t.num_leaves_) ++
  kvLine "leaf_count".toList (arrayToChars t.leaf_count_ t.num_leaves_) ++
  kvLine "internal_value".toList (arrayToChars t.internal_value_ (t.num_leaves_ - 1)) ++
  kvLine "internal_count".toList (arrayToChars t.internal_count_ (t.num_leaves_ - 1)) ++
  ['\n']

/-- The tree assembled by the deserializing constructor from a complete
key→value map: `num_leaves` is parsed first, then every persisted array to
its implied length.  `max_leaves_` is never assigned (an indeterminate
`int` in C++, modelled as 0) and `leaf_depth_`, `threshold_in_bin_` and
the binned `split_feature_` member stay empty. -/
def Tree.ofKeyVals (kv : List (List Char × List Char)) : Tree :=
  let get := fun k => (lookupKV kv k).getD []
  let num_leaves := (charsToInt (get "num_leaves".toList)).toNat
  { max_leaves_ := 0
    num_leaves_ := num_leaves
    left_child_ := charsToArray (get "left_child".toList) (num_leaves - 1)
    right_child_ := charsToArray (get "right_child".toList) (num_leaves - 1)
    split_feature_ := []
    split_feature_real_ := charsToArray (get "split_feature".toList) (num_leaves - 1)
    threshold_in_bin_ := []
    threshold_ := charsToArray (get "threshold".toList) (num_leaves - 1)
    decision_type_ := charsToArray (get "decision_type".toList) (num_leaves - 1)
    split_gain_ := charsToArray (get "split_gain".toList) (num_leaves - 1)
    leaf_parent_ := charsToArray (get "leaf_parent".toList) num_leaves
    leaf_value_ := charsToArray (get "leaf_value".toList) num_leaves
    leaf_count_ := charsToArray (get "leaf_count".toList) num_leaves
    internal_value_ := charsToArray (get "internal_value".toList) (num_leaves - 1)
    internal_count_ := charsToArray (get "internal_count".toList) (num_leaves - 1)
    leaf_depth_ := [] }

/-- `Tree::Tree(const std::string&)`: build the key→value map; if any
required key is absent the load aborts (`Log::Fatal`, modelled as `none`);
otherwise assemble the tree from the map. -/
def Tree.FromString (s : List Char) : Option Tree :=
  if requiredKeys.all fun k => (lookupKV (buildKeyVals s) k).isSome then
    some (Tree.ofKeyVals (buildKeyVals s))
  else none

lemma getD_set_self {l : List Int} {i : Nat} {v : Int} (h : i < l.length) :
    (l.set i v).getD i 0 = v := by
  simp [List.getD_eq_getElem?_getD, List.getElem?_set_self h]

lemma getD_set_ne {l : List Int} {i j : Nat} {v : Int} (h : i ≠ j) :
    (l.set i v).getD j 0 = l.getD j 0 := by
  simp [List.getD_eq_getElem?_getD, List.getElem?_set_ne h]

lemma getD_replicate {n i : Nat} {x : Int} : (List.replicate n x).getD i x = x := by
  simp only [List.getD_eq_getElem?_getD, List.getElem?_replicate]
  split <;> rfl

/-- The leaf-id encoding used for child references: leaf `L` is stored as
the bitwise complement `~L = -(L+1)`. -/
def encodeLeafRef (L : Nat) : Int := cnot L

/-- Decoding a negative child reference back to a leaf id: `~v = -(v+1)`. -/
def decodeLeafRef (v : Int) : Nat := (cnot v).toNat

/-- C3.  First-split postcondition: on a freshly constructed tree with
`max_leaves ≥ 2` (one leaf, id 0, depth 1, no parent), a call
`Split(leaf = 0, ...)` with any split parameters yields `num_leaves_ = 2`,
internal node 0 with `left_child_ = -1` and `right_child_ = -2`, leaves 0
and 1 both with `leaf_parent_ = 0`, leaf 1's depth equal to leaf 0's
pre-split depth + 1, and returns 1 (the new leaf's id). -/
theorem split_first_postcondition (m : Nat) (hm : 2 ≤ m)
    (feature : Int) (bt : BinType) (threshold_bin real_feature threshold_float
      left_value right_value left_cnt right_cnt gain : Int) :
    let t := Tree.new m
    let r := t.Split 0 feature bt threshold_bin real_feature threshold_float
      left_value right_value left_cnt right_cnt gain
    r.1.num_leaves_ = 2 ∧
    r.1.left_child_.getD 0 0 = -1 ∧
    r.1.right_child_.getD 0 0 = -2 ∧
    r.1.leaf_parent_.getD 0 0 = 0 ∧
    r.1.leaf_parent_.getD 1 0 = 0 ∧
    r.1.leaf_depth_.getD 1 0 = t.leaf_depth_.getD 0 0 + 1 ∧
    r.2 = 1 := by
  obtain ⟨k, rfl⟩ : ∃ k, m = k + 2 := ⟨m - 2, by omega⟩
  simp [Tree.new, Tree.Split, List.replicate_succ, cnot]

/-- C3 witness: the first-split postcondition at `max_leaves = 2` with
concrete split parameters. -/
theorem split_first_postcondition_witness :
    ((Tree.new 2).Split 0 7 BinType.CategoricalBin 1 2 3 4 5 6 7 8).1.num_leaves_ = 2 ∧
    ((Tree.new 2).Split 0 7 BinType.CategoricalBin 1 2 3 4 5 6 7 8).1.left_child_.getD 0 0 = -1 ∧
    ((Tree.new 2).Split 0 7 BinType.CategoricalBin 1 2 3 4 5 6 7 8).1.right_child_.getD 0 0 = -2 ∧
    ((Tree.new 2).Split 0 7 BinType.CategoricalBin 1 2 3 4 5 6 7 8).1.leaf_parent_.getD 0 0 = 0 ∧
    ((Tree.new 2).Split 0 7 BinType.CategoricalBin 1 2 3 4 5 6 7 8).1.leaf_parent_.getD 1 0 = 0 ∧
    ((Tree.new 2).Split 0 7 BinType.CategoricalBin 1 2 3 4 5 6 7 8).1.leaf_depth_.getD 1 0 =
      (Tree.new 2).leaf_depth_.getD 0 0 + 1 ∧
    ((Tree.new 2).Split 0 7 BinType.CategoricalBin 1 2 3 4 5 6 7 8).2 = 1 :=
  split_first_postcondition 2 (by omega) 7 BinType.CategoricalBin 1 2 3 4 5 6 7 8

/-- C4, counterexample.  The claim that the new internal node's
`internal_count_` equals the split leaf's pre-split `leaf_count_` fails on
the very first split: a fresh tree's root leaf has `leaf_count_ = 0`, while
`Split` stores `left_cnt + right_cnt` (here `1 + 1 = 2`). -/
theorem split_internal_count_counterexample :
    ¬ (((Tree.new 2).Split 0 0 BinType.NumericalBin 0 0 0 0 0 1 1 0).1.internal_count_.getD 0 0
        = (Tree.new 2).leaf_count_.getD 0 0) := by
  decide

/-- C4, amended.  Audit trail of `Split`: the new internal node's
`internal_value_` equals the split leaf's pre-split `leaf_value_`, and its
`internal_count_` equals `left_cnt + right_cnt`, the total row count of the
two branches passed by the caller (not the leaf's stored pre-split
`leaf_count_`). -/
theorem split_audit_trail (t : Tree) (leaf : Nat) (feature : Int)
    (bt : BinType) (threshold_bin real_feature threshold_float left_value
      right_value left_cnt right_cnt gain : Int)
    (h1 : t.num_leaves_ - 1 < t.internal_value_.length)
    (h2 : t.num_leaves_ - 1 < t.internal_count_.length) :
    let r := t.Split leaf feature bt threshold_bin real_feature
      threshold_float left_value right_value left_cnt right_cnt gain
    r.1.internal_value_.getD (t.num_leaves_ - 1) 0 = t.leaf_value_.getD leaf 0 ∧
    r.1.internal_count_.getD (t.num_leaves_ - 1) 0 = left_cnt + right_cnt := by
  refine ⟨?_, ?_⟩ <;> simp [Tree.Split, getD_set_self, h1, h2]

/-- C4 witness: the amended audit-trail property at a concrete input. -/
theorem split_audit_trail_witness :
    ((Tree.new 2).Split 0 0 BinType.NumericalBin 0 0 0 7 8 1 2 0).1.internal_value_.getD 0 0
        = (Tree.new 2).leaf_value_.getD 0 0 ∧
    ((Tree.new 2).Split 0 0 BinType.NumericalBin 0 0 0 7 8 1 2 0).1.internal_count_.getD 0 0
        = 1 + 2 :=
  split_audit_trail (Tree.new 2) 0 0 BinType.NumericalBin 0 0 0 7 8 1 2 0
    (by decide) (by decide)

/-- C6.  The child-reference convention: encoding a leaf id and decoding it
back is the identity; encoded references are strictly decreasing negative
integers (`-1, -2, ...`); `Split` stores exactly these encodings as the new
node's children (original leaf on the left, new leaf `num_leaves_` on the
right); and `NodeToJSON` decodes a negative reference with the same
convention when emitting a leaf object. -/
theorem child_reference_convention (L : Nat) (t : Tree) (leaf : Nat)
    (feature : Int) (bt : BinType) (threshold_bin real_feature
      threshold_float left_value right_value left_cnt right_cnt gain : Int)
    (fuel : Nat) (v : Int) (hv : v < 0)
    (h1 : t.num_leaves_ - 1 < t.left_child_.length)
    (h2 : t.num_leaves_ - 1 < t.right_child_.length) :
    decodeLeafRef (encodeLeafRef L) = L ∧
    encodeLeafRef (L + 1) < encodeLeafRef L ∧
    encodeLeafRef L < 0 ∧
    ((t.Split leaf feature bt threshold_bin real_feature threshold_float
        left_value right_value left_cnt right_cnt gain).1.left_child_.getD
          (t.num_leaves_ - 1) 0 = encodeLeafRef leaf ∧
      (t.Split leaf feature bt threshold_bin real_feature threshold_float
        left_value right_value left_cnt right_cnt gain).1.right_child_.getD
          (t.num_leaves_ - 1) 0 = encodeLeafRef t.num_leaves_) ∧
    t.NodeToJSON (fuel + 1) v =
      some (JsonNode.leaf (decodeLeafRef v)
        (t.leaf_parent_.getD (decodeLeafRef v) 0)
        (t.leaf_value_.getD (decodeLeafRef v) 0)
        (t.leaf_count_.getD (decodeLeafRef v) 0)) := by
  refine ⟨?_, ?_, ?_, ⟨?_, ?_⟩, ?_⟩
  · simp [decodeLeafRef, encodeLeafRef, cnot]
  · simp only [encodeLeafRef, cnot]; omega
  · simp only [encodeLeafRef, cnot]; omega
  · simp only [Tree.Split, encodeLeafRef]
    refine getD_set_self ?_
    split <;> simpa using h1
  · simp only [Tree.Split, encodeLeafRef]
    refine getD_set_self ?_
    split <;> simpa using h2
  · simp [Tree.NodeToJSON, decodeLeafRef]
    intro h
    omega

/-- C6 witness: the child-reference convention at concrete inputs. -/
theorem child_reference_convention_witness :
    decodeLeafRef (encodeLeafRef 5) = 5 ∧
    encodeLeafRef 6 < encodeLeafRef 5 ∧
    encodeLeafRef 5 < 0 ∧
    (((Tree.new 2).Split 0 0 BinType.NumericalBin 0 0 0 0 0 1 1 0).1.left_child_.getD
        0 0 = encodeLeafRef 0 ∧
      ((Tree.new 2).Split 0 0 BinType.NumericalBin 0 0 0 0 0 1 1 0).1.right_child_.getD
        0 0 = encodeLeafRef 1) ∧
    (Tree.new 2).NodeToJSON 3 (-1) =
      some (JsonNode.leaf (decodeLeafRef (-1))
        ((Tree.new 2).leaf_parent_.getD (decodeLeafRef (-1)) 0)
        ((Tree.new 2).leaf_value_.getD (decodeLeafRef (-1)) 0)
        ((Tree.new 2).leaf_count_.getD (decodeLeafRef (-1)) 0)) :=
  child_reference_convention 5 (Tree.new 2) 0 0 BinType.NumericalBin 0 0 0 0 0
    1 1 0 2 (-1) (by decide) (by decide) (by decide)

lemma nodeToJSON_new_root_none (m : Nat) :
    ∀ fuel : Nat, (Tree.new m).NodeToJSON fuel 0 = none := by
  intro fuel
  induction fuel with
  | zero => rfl
  | succ fuel ih =>
    have hL : (Tree.new m).left_child_.getD 0 0 = 0 := getD_replicate
    have hR : (Tree.new m).right_child_.getD 0 0 = 0 := getD_replicate
    simp only [Tree.NodeToJSON, Int.toNat_zero, hL, hR, ih]
    simp

/-- C8.  JSON export of an unsplit tree: `ToJSON` has no special case for
`num_leaves_ == 1` — it calls `NodeToJSON(0)`, which treats index 0 as an
internal node and recurses into the zero-initialized `left_child_[0] == 0`,
i.e. into itself, forever (the C++ code overflows the stack; the fuel-indexed
model returns `none` for every fuel).  In particular the emitted
`tree_structure` is never the leaf object `{leaf_index: 0}` the spec
requires for a single-leaf tree. -/
theorem toJSON_unsplit_never_leaf (m fuel : Nat) :
    ((Tree.new m).ToJSON fuel).tree_structure = none := by
  simp [Tree.ToJSON, nodeToJSON_new_root_none]

lemma applyOp_num_leaves (t : Tree) (o : SplitOp) :
    (t.applyOp o).1.num_leaves_ = t.num_leaves_ + 1 := rfl

lemma applyOp_max_leaves (t : Tree) (o : SplitOp) :
    (t.applyOp o).1.max_leaves_ = t.max_leaves_ := rfl

lemma applySplits_num_leaves (ops : List SplitOp) :
    ∀ t : Tree, (t.applySplits ops).num_leaves_ = t.num_leaves_ + ops.length := by
  induction ops with
  | nil => intro t; rfl
  | cons o rest ih =>
    intro t
    show ((t.applyOp o).1.applySplits rest).num_leaves_ = _
    rw [ih, applyOp_num_leaves]
    simp
    omega

lemma splitTrace_eq_range' (ops : List SplitOp) :
    ∀ t : Tree, 1 ≤ t.num_leaves_ →
      t.splitTrace ops = List.range' (t.num_leaves_ - 1) ops.length := by
  induction ops with
  | nil => intro t _; rfl
  | cons o rest ih =>
    intro t ht
    show (t.num_leaves_ - 1) :: (t.applyOp o).1.splitTrace rest = _
    rw [ih (t.applyOp o).1 (by rw [applyOp_num_leaves]; omega), applyOp_num_leaves]
    have : List.range' (t.num_leaves_ - 1) (rest.length + 1) =
       (t.num_leaves_ - 1) :: List.range' (t.num_leaves_ - 1 + 1) rest.length :=
      List.range'_succ ..
    rw [List.length_cons, this]
    congr 2
    omega

/-- C2.  Growth invariant: applying any valid sequence of `n` `Split` calls
to a fresh tree yields `num_leaves_ = 1 + n`, and the internal-node indices
written by the calls are exactly `0, 1, ..., n-1` (nodes are allocated in
split order), so the number of populated internal nodes is
`n = num_leaves_ - 1`. -/
theorem growth_invariant (m : Nat) (ops : List SplitOp)
    (hv : (Tree.new m).validSeq ops = true) :
    ((Tree.new m).applySplits ops).num_leaves_ = 1 + ops.length ∧
    (Tree.new m).splitTrace ops = List.range ops.length := by
  constructor
  · rw [applySplits_num_leaves]
    show 1 + ops.length = _
    omega
  · rw [splitTrace_eq_range' ops (Tree.new m) (by rfl : 1 ≤ (Tree.new m).num_leaves_)]
    show List.range' 0 ops.length = _
    exact (List.range_eq_range' ops.length).symm

/-- C2 witness: two valid splits on a fresh capacity-3 tree. -/
theorem growth_invariant_witness :
    (Tree.new 3).validSeq
      [⟨0, 1, BinType.NumericalBin, 2, 3, 4, 5, 6, 7, 8, 9⟩,
       ⟨1, 1, BinType.CategoricalBin, 2, 3, 4, 5, 6, 7, 8, 9⟩] = true ∧
    ((Tree.new 3).applySplits
      [⟨0, 1, BinType.NumericalBin, 2, 3, 4, 5, 6, 7, 8, 9⟩,
       ⟨1, 1, BinType.CategoricalBin, 2, 3, 4, 5, 6, 7, 8, 9⟩]).num_leaves_ = 1 + 2 ∧
    (Tree.new 3).splitTrace
      [⟨0, 1, BinType.NumericalBin, 2, 3, 4, 5, 6, 7, 8, 9⟩,
       ⟨1, 1, BinType.CategoricalBin, 2, 3, 4, 5, 6, 7, 8, 9⟩] = List.range 2 :=
  ⟨by decide,
    (growth_invariant 3 _ (by decide)).1,
    (growth_invariant 3 _ (by decide)).2⟩

/-- C5.  Parent patching in `Split`: when the split leaf has a parent node
`p` (a populated internal node, i.e. `p < num_leaves_ - 1`) and exactly one
of `p`'s child links encodes the leaf via the complement convention, the
`Split` call redirects exactly that link to the new internal node id
`num_leaves_ - 1`, leaves `p`'s other link unchanged, and leaves the child
links of every other populated internal node unchanged. -/
theorem split_parent_patching (t : Tree) (leaf : Nat) (feature : Int)
    (bt : BinType) (threshold_bin real_feature threshold_float left_value
      right_value left_cnt right_cnt gain : Int)
    (hp : 0 ≤ t.leaf_parent_.getD leaf 0)
    (hplt : (t.leaf_parent_.getD leaf 0).toNat < t.num_leaves_ - 1)
    (hlenL : t.num_leaves_ - 1 ≤ t.left_child_.length)
    (hlenR : t.num_leaves_ - 1 ≤ t.right_child_.length)
    (hone : (t.left_child_.getD (t.leaf_parent_.getD leaf 0).toNat 0 = cnot leaf ∧
        t.right_child_.getD (t.leaf_parent_.getD leaf 0).toNat 0 ≠ cnot leaf) ∨
      (t.left_child_.getD (t.leaf_parent_.getD leaf 0).toNat 0 ≠ cnot leaf ∧
        t.right_child_.getD (t.leaf_parent_.getD leaf 0).toNat 0 = cnot leaf)) :
    ((t.left_child_.getD (t.leaf_parent_.getD leaf 0).toNat 0 = cnot leaf →
      (t.Split leaf feature bt threshold_bin real_feature threshold_float
          left_value right_value left_cnt right_cnt gain).1.left_child_.getD
        (t.leaf_parent_.getD leaf 0).toNat 0 = ((t.num_leaves_ - 1 : Nat) : Int) ∧
      (t.Split leaf feature bt threshold_bin real_feature threshold_float
          left_value right_value left_cnt right_cnt gain).1.right_child_.getD
        (t.leaf_parent_.getD leaf 0).toNat 0 =
        t.right_child_.getD (t.leaf_parent_.getD leaf 0).toNat 0) ∧
    (t.left_child_.getD (t.leaf_parent_.getD leaf 0).toNat 0 ≠ cnot leaf →
      (t.Split leaf feature bt threshold_bin real_feature threshold_float
          left_value right_value left_cnt right_cnt gain).1.right_child_.getD
        (t.leaf_parent_.getD leaf 0).toNat 0 = ((t.num_leaves_ - 1 : Nat) : Int) ∧
      (t.Split leaf feature bt threshold_bin real_feature threshold_float
          left_value right_value left_cnt right_cnt gain).1.left_child_.getD
        (t.leaf_parent_.getD leaf 0).toNat 0 =
        t.left_child_.getD (t.leaf_parent_.getD leaf 0).toNat 0)) ∧
    ∀ q : Nat, q < t.num_leaves_ - 1 → q ≠ (t.leaf_parent_.getD leaf 0).toNat →
      (t.Split leaf feature bt threshold_bin real_feature threshold_float
          left_value right_value left_cnt right_cnt gain).1.left_child_.getD
        q 0 = t.left_child_.getD q 0 ∧
      (t.Split leaf feature bt threshold_bin real_feature threshold_float
          left_value right_value left_cnt right_cnt gain).1.right_child_.getD
        q 0 = t.right_child_.getD q 0 := by
  have hpl : (t.leaf_parent_.getD leaf 0).toNat < t.left_child_.length :=
    lt_of_lt_of_le hplt hlenL
  have hpr : (t.leaf_parent_.getD leaf 0).toNat < t.right_child_.length :=
    lt_of_lt_of_le hplt hlenR
  have hne : t.num_leaves_ - 1 ≠ (t.leaf_parent_.getD leaf 0).toNat := by omega
  refine ⟨⟨fun hL => ?_, fun hL => ?_⟩, fun q hq hqp => ?_⟩
  · constructor
    · simp only [Tree.Split]
      rw [getD_set_ne hne, if_pos ⟨hp, hL⟩, getD_set_self hpl]
    · simp only [Tree.Split]
      rw [getD_set_ne hne, if_neg (fun h => h.2 hL)]
  · constructor
    · simp only [Tree.Split]
      rw [getD_set_ne hne, if_pos ⟨hp, hL⟩, getD_set_self hpr]
    · simp only [Tree.Split]
      rw [getD_set_ne hne, if_neg (fun h => hL h.2)]
  · have hneq : t.num_leaves_ - 1 ≠ q := by omega
    have hpq : (t.leaf_parent_.getD leaf 0).toNat ≠ q := Ne.symm hqp
    constructor
    · simp only [Tree.Split]
      rw [getD_set_ne hneq]
      split
      · exact getD_set_ne hpq
      · rfl
    · simp only [Tree.Split]
      rw [getD_set_ne hneq]
      split
      · exact getD_set_ne hpq
      · rfl

/-- C5 witness: split leaf 1 of a two-leaf tree (its parent is node 0,
whose right link `-2` encodes leaf 1). -/
theorem split_parent_patching_witness :
    (((Tree.new 3).Split 0 0 BinType.NumericalBin 0 0 0 0 0 1 1 0).1.Split 1 0
        BinType.NumericalBin 0 0 0 0 0 1 1 0).1.right_child_.getD 0 0 = 1 ∧
    (((Tree.new 3).Split 0 0 BinType.NumericalBin 0 0 0 0 0 1 1 0).1.Split 1 0
        BinType.NumericalBin 0 0 0 0 0 1 1 0).1.left_child_.getD 0 0 =
      ((Tree.new 3).Split 0 0 BinType.NumericalBin 0 0 0 0 0 1 1 0).1.left_child_.getD 0 0 := by
  have h := split_parent_patching
    ((Tree.new 3).Split 0 0 BinType.NumericalBin 0 0 0 0 0 1 1 0).1 1 0
    BinType.NumericalBin 0 0 0 0 0 1 1 0 (by decide) (by decide) (by decide)
    (by decide) (Or.inr ⟨by decide, by decide⟩)
  have h2 := h.1.2 (by decide)
  exact ⟨h2.1, h2.2⟩

lemma getD_append_left {α : Type} {l l2 : List α} {j : Nat} {dflt : α}
    (h : j < l.length) : (l ++ l2).getD j dflt = l.getD j dflt := by
  simp [List.getD_eq_getElem?_getD, List.getElem?_append, h]

lemma getD_append_last {α : Type} {l : List α} {a dflt : α} :
    (l ++ [a]).getD l.length dflt = a := by
  simp [List.getD_eq_getElem?_getD, List.getElem?_append_right (le_refl _)]

lemma foldl_range_getD {α β : Type} (f : β → α → β) (dflt : α) :
    ∀ (l : List α) (b : β),
      (List.range l.length).foldl (fun sc j => f sc (l.getD j dflt)) b =
        l.foldl f b := by
  intro l
  induction l using List.reverseRecOn with
  | nil => intro b; rfl
  | append_singleton l a ih =>
    intro b
    have hr : List.range (l ++ [a]).length = List.range l.length ++ [l.length] := by
      rw [List.length_append, List.length_singleton]
      exact List.range_succ l.length
    rw [hr, List.foldl_append, List.foldl_append]
    have hsame : (List.range l.length).foldl
        (fun sc j => f sc ((l ++ [a]).getD j dflt)) b =
        (List.range l.length).foldl (fun sc j => f sc (l.getD j dflt)) b := by
      refine List.foldl_ext _ _ b fun sc j hj => ?_
      rw [getD_append_left (List.mem_range.mp hj)]
    rw [hsame, ih b]
    simp [getD_append_last]

lemma addPrediction_eq_seq (t : Tree) (d : DatasetModel)
    (chunks : List (Nat × Nat)) (num_data : Nat) (score : List Int)
    (h : chunksPartition chunks num_data) :
    t.AddPredictionToScore d chunks score = t.seqAddPrediction d num_data score := by
  unfold Tree.AddPredictionToScore Tree.seqAddPrediction
  rw [← h, List.foldl_flatten, List.foldl_map]

lemma addPredictionSub_eq_seq (t : Tree) (d : DatasetModel)
    (used_data_indices : List Nat) (chunks : List (Nat × Nat))
    (score : List Int) (h : chunksPartition chunks used_data_indices.length) :
    t.AddPredictionToScoreSub d used_data_indices chunks score =
      t.seqAddPredictionSub d used_data_indices score := by
  unfold Tree.AddPredictionToScoreSub Tree.seqAddPredictionSub
  rw [← foldl_range_getD (t.scoreRow d) 0 used_data_indices score, ← h,
    List.foldl_flatten, List.foldl_map]

/-- C9.  Batch-scoring equivalence and additivity: for any thread
partition of the row range into contiguous chunks,
`AddPredictionToScore` over the full dataset equals the sequential
per-row semantics (for every row `i` in order, add
`leaf_value_[GetLeaf(i)]` to `score[i]`, accumulating); and the subset
overload run on two disjoint index lists (each under any chunk
partition) equals one run on their concatenation. -/
theorem batch_scoring_equivalence (t : Tree) (d : DatasetModel)
    (score : List Int) (chunks : List (Nat × Nat)) (num_data : Nat)
    (S1 S2 : List Nat) (c1 c2 c3 : List (Nat × Nat))
    (h : chunksPartition chunks num_data)
    (h1 : chunksPartition c1 S1.length)
    (h2 : chunksPartition c2 S2.length)
    (h3 : chunksPartition c3 (S1 ++ S2).length)
    (hdisj : ∀ i, i ∈ S1 → i ∉ S2) :
    t.AddPredictionToScore d chunks score = t.seqAddPrediction d num_data score ∧
    t.AddPredictionToScoreSub d S2 c2 (t.AddPredictionToScoreSub d S1 c1 score) =
      t.AddPredictionToScoreSub d (S1 ++ S2) c3 score := by
  constructor
  · exact addPrediction_eq_seq t d chunks num_data score h
  · rw [addPredictionSub_eq_seq t d S1 c1 score h1,
      addPredictionSub_eq_seq t d S2 c2 _ h2,
      addPredictionSub_eq_seq t d (S1 ++ S2) c3 score h3]
    unfold Tree.seqAddPredictionSub
    rw [List.foldl_append]

/-- C9 witness: a two-leaf tree scored over three rows, both with a
two-chunk partition against the sequential semantics and with disjoint
subsets `[0, 2]` and `[1]` against their concatenation. -/
theorem batch_scoring_equivalence_witness :
    ((Tree.new 2).Split 0 0 BinType.NumericalBin 1 0 0 10 20 1 1 0).1.AddPredictionToScore
        ⟨1, fun r _ => (r : Int)⟩ [(0, 1), (1, 3)] [0, 0, 0] =
      ((Tree.new 2).Split 0 0 BinType.NumericalBin 1 0 0 10 20 1 1 0).1.seqAddPrediction
        ⟨1, fun r _ => (r : Int)⟩ 3 [0, 0, 0] ∧
    ((Tree.new 2).Split 0 0 BinType.NumericalBin 1 0 0 10 20 1 1 0).1.AddPredictionToScoreSub
        ⟨1, fun r _ => (r : Int)⟩ [1] [(0, 1)]
        (((Tree.new 2).Split 0 0 BinType.NumericalBin 1 0 0 10 20 1 1 0).1.AddPredictionToScoreSub
          ⟨1, fun r _ => (r : Int)⟩ [0, 2] [(0, 2)] [0, 0, 0]) =
      ((Tree.new 2).Split 0 0 BinType.NumericalBin 1 0 0 10 20 1 1 0).1.AddPredictionToScoreSub
        ⟨1, fun r _ => (r : Int)⟩ ([0, 2] ++ [1]) [(0, 3)] [0, 0, 0] :=
  batch_scoring_equivalence _ ⟨1, fun r _ => (r : Int)⟩ [0, 0, 0]
    [(0, 1), (1, 3)] 3 [0, 2] [1] [(0, 2)] [(0, 1)] [(0, 3)]
    (by unfold chunksPartition; decide) (by unfold chunksPartition; decide)
    (by unfold chunksPartition; decide) (by unfold chunksPartition; decide)
    (by decide)

lemma natDigitsRevAux_fuel : ∀ n : Nat, ∀ fuel : Nat, n ≤ fuel →
    natDigitsRevAux fuel n = natDigitsRevAux n n := by
  intro n
  induction n using Nat.strong_induction_on with
  | _ n ih =>
    intro fuel hfuel
    by_cases h0 : n = 0
    · subst h0
      cases fuel with
      | zero => rfl
      | succ f => rfl
    · obtain ⟨f, rfl⟩ : ∃ f, fuel = f + 1 := ⟨fuel - 1, by omega⟩
      obtain ⟨m, rfl⟩ : ∃ m, n = m + 1 := ⟨n - 1, by omega⟩
      show (if m + 1 = 0 then [] else
        (m + 1) % 10 :: natDigitsRevAux f ((m + 1) / 10)) = _
      rw [if_neg h0]
      have hdiv : (m + 1) / 10 < m + 1 := Nat.div_lt_self (by omega) (by omega)
      rw [ih ((m + 1) / 10) hdiv f (by omega)]
      show _ = (if m + 1 = 0 then [] else
        (m + 1) % 10 :: natDigitsRevAux m ((m + 1) / 10))
      rw [if_neg h0, ih ((m + 1) / 10) hdiv m (by omega)]

lemma natDigitsRev_eq (n : Nat) :
    natDigitsRev n = if n = 0 then [] else n % 10 :: natDigitsRev (n / 10) := by
  by_cases h0 : n = 0
  · subst h0; rfl
  · obtain ⟨m, rfl⟩ : ∃ m, n = m + 1 := ⟨n - 1, by omega⟩
    rw [if_neg h0]
    show (if m + 1 = 0 then [] else
      (m + 1) % 10 :: natDigitsRevAux m ((m + 1) / 10)) = _
    rw [if_neg h0]
    have hdiv : (m + 1) / 10 < m + 1 := Nat.div_lt_self (by omega) (by omega)
    rw [natDigitsRevAux_fuel ((m + 1) / 10) m (by omega)]
    rfl

lemma natDigitsRev_lt_ten : ∀ n : Nat, ∀ d ∈ natDigitsRev n, d < 10 := by
  intro n
  induction n using Nat.strong_induction_on with
  | _ n ih =>
    rw [natDigitsRev_eq]
    split
    · intro d hd; simp at hd
    · intro d hd
      rcases List.mem_cons.mp hd with h | h
      · subst h; exact Nat.mod_lt n (by omega)
      · exact ih (n / 10) (Nat.div_lt_self (by omega) (by omega)) d h

lemma natDigitsRev_ne_nil {n : Nat} (h : n ≠ 0) : natDigitsRev n ≠ [] := by
  rw [natDigitsRev_eq]
  simp [h]

lemma digitChar_toNat_sub {d : Nat} (h : d < 10) :
    (Nat.digitChar d).toNat - 48 = d := by
  interval_cases d <;> decide

lemma digitChar_is_digit {d : Nat} (h : d < 10) :
    48 ≤ (Nat.digitChar d).toNat ∧ (Nat.digitChar d).toNat ≤ 57 := by
  interval_cases d <;> decide

lemma foldl_digits :
    ∀ n : Nat, ∀ a : Nat,
      (natDigitsRev n).reverse.foldl (fun a d => a * 10 + d) a =
        a * 10 ^ (natDigitsRev n).length + n := by
  intro n
  induction n using Nat.strong_induction_on with
  | _ n ih =>
    intro a
    by_cases h0 : n = 0
    · subst h0
      rw [natDigitsRev_eq]
      simp
    · rw [natDigitsRev_eq]
      rw [if_neg h0]
      simp only [List.reverse_cons, List.foldl_append, List.foldl_cons,
        List.foldl_nil, List.length_cons]
      rw [ih (n / 10) (Nat.div_lt_self (by omega) (by omega)) a]
      have hmod : 10 * (n / 10) + n % 10 = n := Nat.div_add_mod n 10
      have hpow : (10 : Nat) ^ ((natDigitsRev (n / 10)).length + 1) =
          10 ^ (natDigitsRev (n / 10)).length * 10 := pow_succ ..
      rw [hpow]
      ring_nf
      omega

lemma charsToNat_natToChars (n : Nat) : charsToNat (natToChars n) = n := by
  unfold natToChars
  split
  · subst n        -- wrong direction? the split hypothesis is n = 0
    rfl
  · unfold charsToNat
    rw [List.foldl_map]
    have hext : (natDigitsRev n).reverse.foldl
        (fun a d => a * 10 + ((Nat.digitChar d).toNat - 48)) 0 =
        (natDigitsRev n).reverse.foldl (fun a d => a * 10 + d) 0 := by
      refine List.foldl_ext _ _ 0 fun a d hd => ?_
      rw [digitChar_toNat_sub (natDigitsRev_lt_ten n d (List.mem_reverse.mp hd))]
    rw [hext, foldl_digits n 0]
    simp

lemma natToChars_ne_nil (n : Nat) : natToChars n ≠ [] := by
  unfold natToChars
  split
  · simp
  · have h : natDigitsRev n ≠ [] := natDigitsRev_ne_nil (by assumption)
    simp [h]

lemma natToChars_digits (n : Nat) :
    ∀ c ∈ natToChars n, 48 ≤ c.toNat ∧ c.toNat ≤ 57 := by
  unfold natToChars
  split
  · intro c hc
    simp at hc
    subst hc
    decide
  · intro c hc
    simp only [List.mem_map, List.mem_reverse] at hc
    obtain ⟨d, hd, rfl⟩ := hc
    exact digitChar_is_digit (natDigitsRev_lt_ten n d hd)

/-- Characters that can appear in a rendered number. -/
def numChar (c : Char) : Prop := c = '-' ∨ (48 ≤ c.toNat ∧ c.toNat ≤ 57)

lemma intToChars_numChar (i : Int) : ∀ c ∈ intToChars i, numChar c := by
  unfold intToChars
  split
  · intro c hc
    rcases List.mem_cons.mp hc with h | h
    · exact Or.inl h
    · exact Or.inr (natToChars_digits _ c h)
  · intro c hc
    exact Or.inr (natToChars_digits _ c hc)

lemma intToChars_ne_nil (i : Int) : intToChars i ≠ [] := by
  unfold intToChars
  split
  · simp
  · exact natToChars_ne_nil _

lemma numChar_not_special {c : Char} (h : numChar c) :
    isSpaceChar c = false ∧ c ≠ '\n' ∧ c ≠ '=' ∧ c ≠ ' ' := by
  rcases h with h | h
  · subst h; decide
  · refine ⟨?_, ?_, ?_, ?_⟩
    · simp only [isSpaceChar, Bool.decide_or, Bool.or_eq_false_iff,
        decide_eq_false_iff_not]
      refine ⟨?_, ?_, ?_, ?_⟩ <;>
        · rintro rfl; revert h; decide
    · rintro rfl; revert h; decide
    · rintro rfl; revert h; decide
    · rintro rfl; revert h; decide

lemma charsToInt_intToChars (i : Int) : charsToInt (intToChars i) = i := by
  by_cases hi : i < 0
  · unfold intToChars
    rw [if_pos hi]
    simp only [charsToInt]
    rw [if_pos trivial, charsToNat_natToChars]
    omega
  · unfold intToChars
    rw [if_neg hi]
    cases hs : natToChars i.toNat with
    | nil => exact absurd hs (natToChars_ne_nil _)
    | cons c rest =>
      have hcd : 48 ≤ c.toNat ∧ c.toNat ≤ 57 := by
        refine natToChars_digits i.toNat c ?_
        rw [hs]; exact List.mem_cons_self ..
      have hcne : ¬ c = '-' := by
        rintro rfl; revert hcd; decide
      simp only [charsToInt]
      rw [if_neg hcne, ← hs, charsToNat_natToChars]
      omega

lemma splitOnChar_ne_nil (c : Char) : ∀ l : List Char, splitOnChar c l ≠ [] := by
  intro l
  induction l with
  | nil => simp [splitOnChar]
  | cons x xs ih =>
    rw [splitOnChar]
    split
    · simp
    · cases h : splitOnChar c xs with
      | nil => exact absurd h ih
      | cons p ps => simp [h]

lemma splitOnChar_not_mem (c : Char) :
    ∀ l : List Char, c ∉ l → splitOnChar c l = [l] := by
  intro l
  induction l with
  | nil => intro _; rfl
  | cons x xs ih =>
    intro h
    rw [splitOnChar]
    rw [if_neg (by intro hx; exact h (hx ▸ List.mem_cons_self ..))]
    rw [ih (fun hm => h (List.mem_cons_of_mem x hm))]

lemma splitOnChar_append_cons (c : Char) :
    ∀ a b : List Char, c ∉ a →
      splitOnChar c (a ++ c :: b) = a :: splitOnChar c b := by
  intro a
  induction a with
  | nil => intro b _; simp [splitOnChar]
  | cons x xs ih =>
    intro b h
    have hx : ¬ x = c := fun hx => h (hx ▸ List.mem_cons_self ..)
    rw [List.cons_append, splitOnChar, if_neg hx,
      ih b (fun hm => h (List.mem_cons_of_mem x hm))]

lemma splitOnChar_append_last (c : Char) :
    ∀ a b : List Char, c ∉ b →
      splitOnChar c (a ++ c :: b) = splitOnChar c a ++ [b] := by
  intro a
  induction a with
  | nil =>
    intro b h
    simp [splitOnChar, splitOnChar_not_mem c b h]
  | cons x xs ih =>
    intro b h
    by_cases hx : x = c
    · subst hx
      rw [List.cons_append, splitOnChar, if_pos rfl, ih b h, splitOnChar,
        if_pos rfl]
      rfl
    · rw [List.cons_append, splitOnChar, if_neg hx, ih b h]
      cases hs : splitOnChar c xs with
      | nil => exact absurd hs (splitOnChar_ne_nil c xs)
      | cons p ps =>
        rw [splitOnChar, if_neg hx, hs]
        rfl

lemma splitFirstOn_append_cons (c : Char) :
    ∀ a b : List Char, c ∉ a → splitFirstOn c (a ++ c :: b) = [a, b] := by
  intro a
  induction a with
  | nil => intro b _; simp [splitFirstOn]
  | cons x xs ih =>
    intro b h
    have hx : ¬ x = c := fun hx => h (hx ▸ List.mem_cons_self ..)
    rw [List.cons_append, splitFirstOn, if_neg hx,
      ih b (fun hm => h (List.mem_cons_of_mem x hm))]

lemma joinWithChar_chars (c : Char) (P : Char → Prop) :
    ∀ toks : List (List Char), (∀ tok ∈ toks, ∀ ch ∈ tok, P ch) →
      ∀ ch ∈ joinWithChar c toks, ch = c ∨ P ch := by
  intro toks
  induction toks with
  | nil => intro _ ch hch; simp [joinWithChar] at hch
  | cons x rest ih =>
    intro h ch hch
    cases rest with
    | nil =>
      exact Or.inr (h x (List.mem_cons_self ..) ch hch)
    | cons y rest2 =>
      rw [joinWithChar] at hch
      rcases List.mem_append.mp hch with hm | hm
      · exact Or.inr (h x (List.mem_cons_self ..) ch hm)
      · rcases List.mem_cons.mp hm with hm | hm
        · exact Or.inl hm
        · exact ih (fun tok htok => h tok (List.mem_cons_of_mem x htok)) ch hm

lemma joinWithChar_ne_nil (c : Char) (x : List Char) (toks : List (List Char))
    (hx : x ≠ []) : joinWithChar c (x :: toks) ≠ [] := by
  cases toks with
  | nil => exact hx
  | cons y rest =>
    rw [joinWithChar]
    simp

lemma splitOnChar_joinWithChar (c : Char) :
    ∀ toks : List (List Char), toks ≠ [] → (∀ tok ∈ toks, c ∉ tok) →
      splitOnChar c (joinWithChar c toks) = toks := by
  intro toks
  induction toks with
  | nil => intro h _; exact absurd rfl h
  | cons x rest ih =>
    intro _ h
    cases rest with
    | nil =>
      show splitOnChar c (joinWithChar c [x]) = [x]
      rw [joinWithChar]
      exact splitOnChar_not_mem c x (h x (List.mem_cons_self ..))
    | cons y rest2 =>
      rw [joinWithChar,
        splitOnChar_append_cons c x _ (h x (List.mem_cons_self ..)),
        ih (by simp) (fun tok htok => h tok (List.mem_cons_of_mem x htok))]

lemma joinWithChar_head? (c : Char) (x : List Char) (toks : List (List Char))
    (hx : x ≠ []) : (joinWithChar c (x :: toks)).head? = x.head? := by
  cases toks with
  | nil => rfl
  | cons y rest =>
    rw [joinWithChar, List.head?_append]
    cases x with
    | nil => exact absurd rfl hx
    | cons a xs => rfl

lemma joinWithChar_getLast?_mem (c : Char) :
    ∀ toks : List (List Char), toks ≠ [] → (∀ tok ∈ toks, tok ≠ []) →
      ∃ tok ∈ toks, (joinWithChar c toks).getLast? = tok.getLast? := by
  intro toks
  induction toks with
  | nil => intro h _; exact absurd rfl h
  | cons x rest ih =>
    intro _ h
    cases rest with
    | nil => exact ⟨x, List.mem_cons_self .., rfl⟩
    | cons y rest2 =>
      obtain ⟨tok, htok, heq⟩ :=
        ih (by simp) (fun tok htok => h tok (List.mem_cons_of_mem x htok))
      refine ⟨tok, List.mem_cons_of_mem x htok, ?_⟩
      rw [joinWithChar,
        List.getLast?_append_of_ne_nil _ (by simp : c :: joinWithChar c (y :: rest2) ≠ [])]
      have hjy : joinWithChar c (y :: rest2) ≠ [] :=
        joinWithChar_ne_nil c y rest2 (h y (List.mem_cons_of_mem x (List.mem_cons_self ..)))
      cases hj : joinWithChar c (y :: rest2) with
      | nil => exact absurd hj hjy
      | cons b bs =>
        rw [← hj, ← heq]
        cases hj2 : joinWithChar c (y :: rest2) with
        | nil => exact absurd hj2 hjy
        | cons b2 bs2 => simp [List.getLast?]

lemma mem_of_getLast? {c : Char} {s : List Char} (h : s.getLast? = some c) :
    c ∈ s := by
  rcases List.mem_getLast?_eq_getLast (show c ∈ s.getLast? by rw [h]; rfl) with
    ⟨hne, rfl⟩
  exact List.getLast_mem hne

lemma dropWhile_head? {p : Char → Bool} :
    ∀ s : List Char, (∀ ch, s.head? = some ch → p ch = false) →
      s.dropWhile p = s := by
  intro s h
  cases s with
  | nil => rfl
  | cons a l => simp [List.dropWhile_cons, h a rfl]

lemma trimChars_of_ends (s : List Char)
    (h1 : ∀ ch, s.head? = some ch → isSpaceChar ch = false)
    (h2 : ∀ ch, s.getLast? = some ch → isSpaceChar ch = false) :
    trimChars s = s := by
  unfold trimChars
  rw [dropWhile_head? s h1]
  rw [dropWhile_head? s.reverse
    (fun ch hch => h2 ch (by rw [← List.head?_reverse]; exact hch))]
  exact List.reverse_reverse s

lemma trimChars_of_all (s : List Char)
    (h : ∀ ch ∈ s, isSpaceChar ch = false) : trimChars s = s := by
  refine trimChars_of_ends s (fun ch hch => h ch (List.mem_of_mem_head? hch))
    (fun ch hch => h ch (mem_of_getLast? hch))

lemma arrayToChars_chars (l : List Int) (n : Nat) :
    ∀ ch ∈ arrayToChars l n, ch = ' ' ∨ numChar ch := by
  unfold arrayToChars
  exact joinWithChar_chars ' ' numChar _
    (fun tok htok ch hch => by
      obtain ⟨v, _, rfl⟩ := List.mem_map.mp htok
      exact intToChars_numChar v ch hch)

lemma arrayToChars_no_newline (l : List Int) (n : Nat) :
    '\n' ∉ arrayToChars l n := by
  intro hmem
  rcases arrayToChars_chars l n '\n' hmem with h | h
  · exact absurd h (by decide)
  · exact absurd ((numChar_not_special h).2.1) (by simp)

lemma arrayToChars_no_eq (l : List Int) (n : Nat) :
    '=' ∉ arrayToChars l n := by
  intro hmem
  rcases arrayToChars_chars l n '=' hmem with h | h
  · exact absurd h (by decide)
  · exact absurd ((numChar_not_special h).2.2.1) (by simp)

lemma arrayToChars_ne_nil (l : List Int) (n : Nat) (h1 : 1 ≤ n)
    (h2 : 1 ≤ l.length) : arrayToChars l n ≠ [] := by
  unfold arrayToChars
  cases hl : (l.take n).map intToChars with
  | nil =>
    exfalso
    have : (l.take n).length = 0 := by
      have := congrArg List.length hl
      simpa using this
    rw [List.length_take] at this
    omega
  | cons x rest =>
    have hx : x ≠ [] := by
      have hxm : x ∈ (l.take n).map intToChars := by
        rw [hl]; exact List.mem_cons_self ..
      obtain ⟨v, _, rfl⟩ := List.mem_map.mp hxm
      exact intToChars_ne_nil v
    exact joinWithChar_ne_nil ' ' x rest hx

lemma arrayToChars_trim (l : List Int) (n : Nat) :
    trimChars (arrayToChars l n) = arrayToChars l n := by
  rcases List.eq_nil_or_concat ((l.take n).map intToChars) with hnil | _
  · unfold arrayToChars
    rw [hnil]
    rfl
  · have htoks : ∀ tok ∈ (l.take n).map intToChars, tok ≠ [] := by
      intro tok htok
      obtain ⟨v, _, rfl⟩ := List.mem_map.mp htok
      exact intToChars_ne_nil v
    have htokchars : ∀ tok ∈ (l.take n).map intToChars, ∀ ch ∈ tok, numChar ch := by
      intro tok htok ch hch
      obtain ⟨v, _, rfl⟩ := List.mem_map.mp htok
      exact intToChars_numChar v ch hch
    cases hl : (l.take n).map intToChars with
    | nil =>
      unfold arrayToChars
      rw [hl]
      rfl
    | cons x rest =>
      refine trimChars_of_ends _ ?_ ?_
      · intro ch hch
        have hx : x ≠ [] := htoks x (by rw [hl]; exact List.mem_cons_self ..)
        unfold arrayToChars at hch
        rw [hl, joinWithChar_head? ' ' x rest hx] at hch
        have hchx : ch ∈ x := List.mem_of_mem_head? hch
        exact (numChar_not_special
          (htokchars x (by rw [hl]; exact List.mem_cons_self ..) ch hchx)).1
      · intro ch hch
        obtain ⟨tok, htok, heq⟩ := joinWithChar_getLast?_mem ' ' (x :: rest)
          (by simp) (by rw [← hl]; exact htoks)
        unfold arrayToChars at hch
        rw [hl, heq] at hch
        have hchx : ch ∈ tok := mem_of_getLast? hch
        exact (numChar_not_special
          (htokchars tok (by rw [hl]; exact htok) ch hchx)).1

lemma charsToArray_arrayToChars (l : List Int) (n : Nat) (h1 : 1 ≤ n)
    (h2 : n ≤ l.length) : charsToArray (arrayToChars l n) n = l.take n := by
  have htake : (l.take n).length = n := by
    rw [List.length_take]; omega
  have hne : (l.take n).map intToChars ≠ [] := by
    intro h
    have hlen0 : ((l.take n).map intToChars).length = 0 := by rw [h]; rfl
    rw [List.length_map, htake] at hlen0
    omega
  have hnosp : ∀ tok ∈ (l.take n).map intToChars, ' ' ∉ tok := by
    intro tok htok hsp
    obtain ⟨v, _, rfl⟩ := List.mem_map.mp htok
    exact absurd ((numChar_not_special (intToChars_numChar v ' ' hsp)).2.2.2) (by simp)
  have hid : (l.take n).map (charsToInt ∘ intToChars) = (l.take n).map id :=
    List.map_congr_left (fun v _ => charsToInt_intToChars v)
  rw [List.map_id] at hid
  unfold charsToArray arrayToChars
  rw [splitOnChar_joinWithChar ' ' _ hne hnosp, List.map_map, hid]
  show (l.take n).take n ++ List.replicate (n - (l.take n).length) 0 = l.take n
  rw [htake]
  simp [List.take_of_length_le (le_of_eq htake)]

lemma numLeavesVal_trim (k : Nat) :
    trimChars (intToChars (k : Int)) = intToChars (k : Int) := by
  refine trimChars_of_all _ fun ch hch => ?_
  exact (numChar_not_special (intToChars_numChar _ ch hch)).1

lemma numLeavesVal_roundtrip (k : Nat) :
    (charsToInt (intToChars (k : Int))).toNat = k := by
  rw [charsToInt_intToChars]
  omega

lemma intToChars_no_newline (i : Int) : '\n' ∉ intToChars i := by
  intro hmem
  exact absurd ((numChar_not_special (intToChars_numChar i _ hmem)).2.1) (by simp)

lemma splitOnChar_kvLine (k v rest : List Char) (hk : '\n' ∉ k)
    (hv : '\n' ∉ v) :
    splitOnChar '\n' (kvLine k v ++ rest) =
      (k ++ '=' :: v) :: splitOnChar '\n' rest := by
  have hshape : kvLine k v ++ rest = (k ++ '=' :: v) ++ '\n' :: rest := by
    simp [kvLine]
  rw [hshape]
  refine splitOnChar_append_cons '\n' _ rest ?_
  intro hmem
  rcases List.mem_append.mp hmem with h | h
  · exact hk h
  · rcases List.mem_cons.mp h with h | h
    · exact absurd h (by decide)
    · exact hv h

lemma ingestLine_nil (m : List (List Char × List Char)) :
    ingestLine m [] = m := rfl

lemma ingestLine_wf (m : List (List Char × List Char)) (k v : List Char)
    (hk : '=' ∉ k) (hkt : trimChars k = k) (hvt : trimChars v = v)
    (hk0 : k ≠ []) (hv0 : v ≠ []) :
    ingestLine m (k ++ '=' :: v) = (k, v) :: m := by
  unfold ingestLine
  rw [splitFirstOn_append_cons '=' k v hk]
  simp [hkt, hvt, hk0, hv0]

lemma buildKeyVals_toString (t : Tree) (hn : 2 ≤ t.num_leaves_)
    (hF : 1 ≤ t.split_feature_real_.length) (hG : 1 ≤ t.split_gain_.length)
    (hT : 1 ≤ t.threshold_.length) (hD : 1 ≤ t.decision_type_.length)
    (hL : 1 ≤ t.left_child_.length) (hR : 1 ≤ t.right_child_.length)
    (hP : 1 ≤ t.leaf_parent_.length) (hV : 1 ≤ t.leaf_value_.length)
    (hC : 1 ≤ t.leaf_count_.length) (hIV : 1 ≤ t.internal_value_.length)
    (hIC : 1 ≤ t.internal_count_.length) :
    buildKeyVals t.ToString =
      [("internal_count".toList, arrayToChars t.internal_count_ (t.num_leaves_ - 1)),
       ("internal_value".toList, arrayToChars t.internal_value_ (t.num_leaves_ - 1)),
       ("leaf_count".toList, arrayToChars t.leaf_count_ t.num_leaves_),
       ("leaf_value".toList, arrayToChars t.leaf_value_ t.num_leaves_),
       ("leaf_parent".toList, arrayToChars t.leaf_parent_ t.num_leaves_),
       ("right_child".toList, arrayToChars t.right_child_ (t.num_leaves_ - 1)),
       ("left_child".toList, arrayToChars t.left_child_ (t.num_leaves_ - 1)),
       ("decision_type".toList, arrayToChars t.decision_type_ (t.num_leaves_ - 1)),
       ("threshold".toList, arrayToChars t.threshold_ (t.num_leaves_ - 1)),
       ("split_gain".toList, arrayToChars t.split_gain_ (t.num_leaves_ - 1)),
       ("split_feature".toList, arrayToChars t.split_feature_real_ (t.num_leaves_ - 1)),
       ("num_leaves".toList, intToChars (t.num_leaves_ : Int))] := by
  unfold buildKeyVals Tree.ToString
  simp only [List.append_assoc]
  rw [splitOnChar_kvLine "num_leaves".toList (intToChars (t.num_leaves_ : Int)) _
      (by decide) (intToChars_no_newline _),
    splitOnChar_kvLine "split_feature".toList
      (arrayToChars t.split_feature_real_ (t.num_leaves_ - 1)) _
      (by decide) (arrayToChars_no_newline _ _),
    splitOnChar_kvLine "split_gain".toList
      (arrayToChars t.split_gain_ (t.num_leaves_ - 1)) _
      (by decide) (arrayToChars_no_newline _ _),
    splitOnChar_kvLine "threshold".toList
      (arrayToChars t.threshold_ (t.num_leaves_ - 1)) _
      (by decide) (arrayToChars_no_newline _ _),
    splitOnChar_kvLine "decision_type".toList
      (arrayToChars t.decision_type_ (t.num_leaves_ - 1)) _
      (by decide) (arrayToChars_no_newline _ _),
    splitOnChar_kvLine "left_child".toList
      (arrayToChars t.left_child_ (t.num_leaves_ - 1)) _
      (by decide) (arrayToChars_no_newline _ _),
    splitOnChar_kvLine "right_child".toList
      (arrayToChars t.right_child_ (t.num_leaves_ - 1)) _
      (by decide) (arrayToChars_no_newline _ _),
    splitOnChar_kvLine "leaf_parent".toList
      (arrayToChars t.leaf_parent_ t.num_leaves_) _
      (by decide) (arrayToChars_no_newline _ _),
    splitOnChar_kvLine "leaf_value".toList
      (arrayToChars t.leaf_value_ t.num_leaves_) _
      (by decide) (arrayToChars_no_newline _ _),
    splitOnChar_kvLine "leaf_count".toList
      (arrayToChars t.leaf_count_ t.num_leaves_) _
      (by decide) (arrayToChars_no_newline _ _),
    splitOnChar_kvLine "internal_value".toList
      (arrayToChars t.internal_value_ (t.num_leaves_ - 1)) _
      (by decide) (arrayToChars_no_newline _ _),
    splitOnChar_kvLine "internal_count".toList
      (arrayToChars t.internal_count_ (t.num_leaves_ - 1)) _
      (by decide) (arrayToChars_no_newline _ _)]
  show List.foldl ingestLine [] _ = _
  simp only [List.foldl_cons, List.foldl_nil]
  rw [ingestLine_wf [] "num_leaves".toList (intToChars (t.num_leaves_ : Int))
      (by decide) (by decide) (numLeavesVal_trim _) (by decide)
      (intToChars_ne_nil _),
    ingestLine_wf _ "split_feature".toList
      (arrayToChars t.split_feature_real_ (t.num_leaves_ - 1))
      (by decide) (by decide) (arrayToChars_trim _ _) (by decide)
      (arrayToChars_ne_nil _ _ (by omega) hF),
    ingestLine_wf _ "split_gain".toList
      (arrayToChars t.split_gain_ (t.num_leaves_ - 1))
      (by decide) (by decide) (arrayToChars_trim _ _) (by decide)
      (arrayToChars_ne_nil _ _ (by omega) hG),
    ingestLine_wf _ "threshold".toList
      (arrayToChars t.threshold_ (t.num_leaves_ - 1))
      (by decide) (by decide) (arrayToChars_trim _ _) (by decide)
      (arrayToChars_ne_nil _ _ (by omega) hT),
    ingestLine_wf _ "decision_type".toList
      (arrayToChars t.decision_type_ (t.num_leaves_ - 1))
      (by decide) (by decide) (arrayToChars_trim _ _) (by decide)
      (arrayToChars_ne_nil _ _ (by omega) hD),
    ingestLine_wf _ "left_child".toList
      (arrayToChars t.left_child_ (t.num_leaves_ - 1))
      (by decide) (by decide) (arrayToChars_trim _ _) (by decide)
      (arrayToChars_ne_nil _ _ (by omega) hL),
    ingestLine_wf _ "right_child".toList
      (arrayToChars t.right_child_ (t.num_leaves_ - 1))
      (by decide) (by decide) (arrayToChars_trim _ _) (by decide)
      (arrayToChars_ne_nil _ _ (by omega) hR),
    ingestLine_wf _ "leaf_parent".toList
      (arrayToChars t.leaf_parent_ t.num_leaves_)
      (by decide) (by decide) (arrayToChars_trim _ _) (by decide)
      (arrayToChars_ne_nil _ _ (by omega) hP),
    ingestLine_wf _ "leaf_value".toList
      (arrayToChars t.leaf_value_ t.num_leaves_)
      (by decide) (by decide) (arrayToChars_trim _ _) (by decide)
      (arrayToChars_ne_nil _ _ (by omega) hV),
    ingestLine_wf _ "leaf_count".toList
      (arrayToChars t.leaf_count_ t.num_leaves_)
      (by decide) (by decide) (arrayToChars_trim _ _) (by decide)
      (arrayToChars_ne_nil _ _ (by omega) hC),
    ingestLine_wf _ "internal_value".toList
      (arrayToChars t.internal_value_ (t.num_leaves_ - 1))
      (by decide) (by decide) (arrayToChars_trim _ _) (by decide)
      (arrayToChars_ne_nil _ _ (by omega) hIV),
    ingestLine_wf _ "internal_count".toList
      (arrayToChars t.internal_count_ (t.num_leaves_ - 1))
      (by decide) (by decide) (arrayToChars_trim _ _) (by decide)
      (arrayToChars_ne_nil _ _ (by omega) hIC)]
  rfl

lemma fromString_toString_eq (t : Tree) (hn : 2 ≤ t.num_leaves_)
    (hF : t.num_leaves_ - 1 ≤ t.split_feature_real_.length)
    (hG : t.num_leaves_ - 1 ≤ t.split_gain_.length)
    (hT : t.num_leaves_ - 1 ≤ t.threshold_.length)
    (hD : t.num_leaves_ - 1 ≤ t.decision_type_.length)
    (hL : t.num_leaves_ - 1 ≤ t.left_child_.length)
    (hR : t.num_leaves_ - 1 ≤ t.right_child_.length)
    (hIV : t.num_leaves_ - 1 ≤ t.internal_value_.length)
    (hIC : t.num_leaves_ - 1 ≤ t.internal_count_.length)
    (hP : t.num_leaves_ ≤ t.leaf_parent_.length)
    (hV : t.num_leaves_ ≤ t.leaf_value_.length)
    (hC : t.num_leaves_ ≤ t.leaf_count_.length) :
    Tree.FromString t.ToString = some
      { max_leaves_ := 0
        num_leaves_ := t.num_leaves_
        left_child_ := t.left_child_.take (t.num_leaves_ - 1)
        right_child_ := t.right_child_.take (t.num_leaves_ - 1)
        split_feature_ := []
        split_feature_real_ := t.split_feature_real_.take (t.num_leaves_ - 1)
        threshold_in_bin_ := []
        threshold_ := t.threshold_.take (t.num_leaves_ - 1)
        decision_type_ := t.decision_type_.take (t.num_leaves_ - 1)
        split_gain_ := t.split_gain_.take (t.num_leaves_ - 1)
        leaf_parent_ := t.leaf_parent_.take t.num_leaves_
        leaf_value_ := t.leaf_value_.take t.num_leaves_
        leaf_count_ := t.leaf_count_.take t.num_leaves_
        internal_value_ := t.internal_value_.take (t.num_leaves_ - 1)
        internal_count_ := t.internal_count_.take (t.num_leaves_ - 1)
        leaf_depth_ := [] } := by
  have hb := buildKeyVals_toString t hn (by omega) (by omega) (by omega)
    (by omega) (by omega) (by omega) (by omega) (by omega) (by omega)
    (by omega) (by omega)
  unfold Tree.FromString Tree.ofKeyVals
  rw [hb]
  simp only [requiredKeys, List.all_cons, List.all_nil, lookupKV]
  simp
  simp only [charsToInt_intToChars, Int.toNat_natCast]
  exact ⟨trivial,
    charsToArray_arrayToChars t.left_child_ (t.num_leaves_ - 1) (by omega) hL,
    charsToArray_arrayToChars t.right_child_ (t.num_leaves_ - 1) (by omega) hR,
    charsToArray_arrayToChars t.split_feature_real_ (t.num_leaves_ - 1) (by omega) hF,
    charsToArray_arrayToChars t.threshold_ (t.num_leaves_ - 1) (by omega) hT,
    charsToArray_arrayToChars t.decision_type_ (t.num_leaves_ - 1) (by omega) hD,
    charsToArray_arrayToChars t.split_gain_ (t.num_leaves_ - 1) (by omega) hG,
    charsToArray_arrayToChars t.leaf_parent_ t.num_leaves_ (by omega) hP,
    charsToArray_arrayToChars t.leaf_value_ t.num_leaves_ (by omega) hV,
    charsToArray_arrayToChars t.leaf_count_ t.num_leaves_ (by omega) hC,
    charsToArray_arrayToChars t.internal_value_ (t.num_leaves_ - 1) (by omega) hIV,
    charsToArray_arrayToChars t.internal_count_ (t.num_leaves_ - 1) (by omega) hIC⟩

lemma applyOp_lengths (t : Tree) (o : SplitOp) :
    (t.applyOp o).1.left_child_.length = t.left_child_.length ∧
    (t.applyOp o).1.right_child_.length = t.right_child_.length ∧
    (t.applyOp o).1.split_feature_real_.length = t.split_feature_real_.length ∧
    (t.applyOp o).1.threshold_.length = t.threshold_.length ∧
    (t.applyOp o).1.decision_type_.length = t.decision_type_.length ∧
    (t.applyOp o).1.split_gain_.length = t.split_gain_.length ∧
    (t.applyOp o).1.leaf_parent_.length = t.leaf_parent_.length ∧
    (t.applyOp o).1.leaf_value_.length = t.leaf_value_.length ∧
    (t.applyOp o).1.leaf_count_.length = t.leaf_count_.length ∧
    (t.applyOp o).1.internal_value_.length = t.internal_value_.length ∧
    (t.applyOp o).1.internal_count_.length = t.internal_count_.length := by
  unfold Tree.applyOp Tree.Split
  refine ⟨?_, ?_, ?_, ?_, ?_, ?_, ?_, ?_, ?_, ?_, ?_⟩ <;>
    · simp only [List.length_set]
      try (first | rfl | (split <;> simp only [List.length_set]))

lemma applySplits_lengths (ops : List SplitOp) :
    ∀ t : Tree,
      (t.applySplits ops).left_child_.length = t.left_child_.length ∧
      (t.applySplits ops).right_child_.length = t.right_child_.length ∧
      (t.applySplits ops).split_feature_real_.length = t.split_feature_real_.length ∧
      (t.applySplits ops).threshold_.length = t.threshold_.length ∧
      (t.applySplits ops).decision_type_.length = t.decision_type_.length ∧
      (t.applySplits ops).split_gain_.length = t.split_gain_.length ∧
      (t.applySplits ops).leaf_parent_.length = t.leaf_parent_.length ∧
      (t.applySplits ops).leaf_value_.length = t.leaf_value_.length ∧
      (t.applySplits ops).leaf_count_.length = t.leaf_count_.length ∧
      (t.applySplits ops).internal_value_.length = t.internal_value_.length ∧
      (t.applySplits ops).internal_count_.length = t.internal_count_.length := by
  induction ops with
  | nil => intro t; exact ⟨rfl, rfl, rfl, rfl, rfl, rfl, rfl, rfl, rfl, rfl, rfl⟩
  | cons o rest ih =>
    intro t
    have h1 := ih (t.applyOp o).1
    have h2 := applyOp_lengths t o
    have hstep : t.applySplits (o :: rest) = (t.applyOp o).1.applySplits rest := rfl
    rw [hstep]
    omega

lemma validSeq_num_leaves_le (ops : List SplitOp) :
    ∀ t : Tree, t.validSeq ops = true → 1 ≤ ops.length →
      (t.applySplits ops).num_leaves_ ≤ t.max_leaves_ := by
  induction ops with
  | nil => intro t _ h; exact absurd h (by simp)
  | cons o rest ih =>
    intro t hv _
    rw [Tree.validSeq, Bool.and_eq_true] at hv
    have hop : t.num_leaves_ < t.max_leaves_ := by
      have := hv.1
      rw [Tree.validOp, Bool.and_eq_true, decide_eq_true_eq, decide_eq_true_eq] at this
      exact this.2
    cases rest with
    | nil =>
      show (t.applyOp o).1.num_leaves_ ≤ t.max_leaves_
      rw [applyOp_num_leaves]
      omega
    | cons o2 rest2 =>
      have := ih (t.applyOp o).1 hv.2 (by simp)
      rw [applyOp_max_leaves] at this
      exact this

/-- C1, counterexample.  A tree built by zero `Split` calls does not round
trip: its internal-node arrays are empty, so `ToString` renders lines such
as `split_feature=` with an empty value, which the line parser skips
(empty value after trim), leaving the required keys absent — the load
aborts and no tree is produced at all. -/
theorem serialize_roundtrip_counterexample :
    Tree.FromString (Tree.new 2).ToString = none := by decide

/-- C1, amended (N ≥ 1).  Serialize/deserialize round trip: for every tree
built from a fresh construction by `N ≥ 1` valid `Split` calls,
deserializing the `ToString` output succeeds and reproduces `num_leaves_`
and the persisted arrays over their implied lengths (`num_leaves_ - 1` for
internal-node arrays, `num_leaves_` for leaf arrays); `threshold_in_bin_`
and the binned `split_feature_` are excluded by design. -/
theorem serialize_roundtrip (m : Nat) (ops : List SplitOp)
    (hv : (Tree.new m).validSeq ops = true) (hlen : 1 ≤ ops.length) :
    ∃ t' : Tree,
      Tree.FromString ((Tree.new m).applySplits ops).ToString = some t' ∧
      t'.num_leaves_ = ((Tree.new m).applySplits ops).num_leaves_ ∧
      t'.split_feature_real_ = ((Tree.new m).applySplits ops).split_feature_real_.take
        (((Tree.new m).applySplits ops).num_leaves_ - 1) ∧
      t'.split_gain_ = ((Tree.new m).applySplits ops).split_gain_.take
        (((Tree.new m).applySplits ops).num_leaves_ - 1) ∧
      t'.threshold_ = ((Tree.new m).applySplits ops).threshold_.take
        (((Tree.new m).applySplits ops).num_leaves_ - 1) ∧
      t'.decision_type_ = ((Tree.new m).applySplits ops).decision_type_.take
        (((Tree.new m).applySplits ops).num_leaves_ - 1) ∧
      t'.left_child_ = ((Tree.new m).applySplits ops).left_child_.take
        (((Tree.new m).applySplits ops).num_leaves_ - 1) ∧
      t'.right_child_ = ((Tree.new m).applySplits ops).right_child_.take
        (((Tree.new m).applySplits ops).num_leaves_ - 1) ∧
      t'.leaf_parent_ = ((Tree.new m).applySplits ops).leaf_parent_.take
        ((Tree.new m).applySplits ops).num_leaves_ ∧
      t'.leaf_value_ = ((Tree.new m).applySplits ops).leaf_value_.take
        ((Tree.new m).applySplits ops).num_leaves_ ∧
      t'.leaf_count_ = ((Tree.new m).applySplits ops).leaf_count_.take
        ((Tree.new m).applySplits ops).num_leaves_ ∧
      t'.internal_value_ = ((Tree.new m).applySplits ops).internal_value_.take
        (((Tree.new m).applySplits ops).num_leaves_ - 1) ∧
      t'.internal_count_ = ((Tree.new m).applySplits ops).internal_count_.take
        (((Tree.new m).applySplits ops).num_leaves_ - 1) := by
  have hnl : ((Tree.new m).applySplits ops).num_leaves_ = 1 + ops.length := by
    rw [applySplits_num_leaves]
    rfl
  have hmax : ((Tree.new m).applySplits ops).num_leaves_ ≤ m := by
    have := validSeq_num_leaves_le ops (Tree.new m) hv hlen
    exact this
  have hlens := applySplits_lengths ops (Tree.new m)
  have hnewlens : (Tree.new m).left_child_.length = m - 1 ∧
      (Tree.new m).right_child_.length = m - 1 ∧
      (Tree.new m).split_feature_real_.length = m - 1 ∧
      (Tree.new m).threshold_.length = m - 1 ∧
      (Tree.new m).decision_type_.length = m - 1 ∧
      (Tree.new m).split_gain_.length = m - 1 ∧
      (Tree.new m).leaf_parent_.length = m ∧
      (Tree.new m).leaf_value_.length = m ∧
      (Tree.new m).leaf_count_.length = m ∧
      (Tree.new m).internal_value_.length = m - 1 ∧
      (Tree.new m).internal_count_.length = m - 1 := by
    simp [Tree.new]
  obtain ⟨e1, e2, e3, e4, e5, e6, e7, e8, e9, e10, e11⟩ := hlens
  obtain ⟨f1, f2, f3, f4, f5, f6, f7, f8, f9, f10, f11⟩ := hnewlens
  have heq := fromString_toString_eq ((Tree.new m).applySplits ops)
    (by omega) (by omega) (by omega) (by omega) (by omega) (by omega)
    (by omega) (by omega) (by omega) (by omega) (by omega) (by omega)
  exact ⟨_, heq, rfl, rfl, rfl, rfl, rfl, rfl, rfl, rfl, rfl, rfl, rfl, rfl⟩

/-- C1 witness: the amended round trip at one valid split on a fresh
capacity-2 tree. -/
theorem serialize_roundtrip_witness :
    ∃ t' : Tree,
      Tree.FromString ((Tree.new 2).applySplits
        [⟨0, 1, BinType.NumericalBin, 2, 3, 4, 5, 6, 7, 8, 9⟩]).ToString = some t' ∧
      t'.num_leaves_ = ((Tree.new 2).applySplits
        [⟨0, 1, BinType.NumericalBin, 2, 3, 4, 5, 6, 7, 8, 9⟩]).num_leaves_ ∧
      t'.split_feature_real_ = ((Tree.new 2).applySplits
        [⟨0, 1, BinType.NumericalBin, 2, 3, 4, 5, 6, 7, 8, 9⟩]).split_feature_real_.take
        (((Tree.new 2).applySplits
          [⟨0, 1, BinType.NumericalBin, 2, 3, 4, 5, 6, 7, 8, 9⟩]).num_leaves_ - 1) ∧
      t'.split_gain_ = ((Tree.new 2).applySplits
        [⟨0, 1, BinType.NumericalBin, 2, 3, 4, 5, 6, 7, 8, 9⟩]).split_gain_.take
        (((Tree.new 2).applySplits
          [⟨0, 1, BinType.NumericalBin, 2, 3, 4, 5, 6, 7, 8, 9⟩]).num_leaves_ - 1) ∧
      t'.threshold_ = ((Tree.new 2).applySplits
        [⟨0, 1, BinType.NumericalBin, 2, 3, 4, 5, 6, 7, 8, 9⟩]).threshold_.take
        (((Tree.new 2).applySplits
          [⟨0, 1, BinType.NumericalBin, 2, 3, 4, 5, 6, 7, 8, 9⟩]).num_leaves_ - 1) ∧
      t'.decision_type_ = ((Tree.new 2).applySplits
        [⟨0, 1, BinType.NumericalBin, 2, 3, 4, 5, 6, 7, 8, 9⟩]).decision_type_.take
        (((Tree.new 2).applySplits
          [⟨0, 1, BinType.NumericalBin, 2, 3, 4, 5, 6, 7, 8, 9⟩]).num_leaves_ - 1) ∧
      t'.left_child_ = ((Tree.new 2).applySplits
        [⟨0, 1, BinType.NumericalBin, 2, 3, 4, 5, 6, 7, 8, 9⟩]).left_child_.take
        (((Tree.new 2).applySplits
          [⟨0, 1, BinType.NumericalBin, 2, 3, 4, 5, 6, 7, 8, 9⟩]).num_leaves_ - 1) ∧
      t'.right_child_ = ((Tree.new 2).applySplits
        [⟨0, 1, BinType.NumericalBin, 2, 3, 4, 5, 6, 7, 8, 9⟩]).right_child_.take
        (((Tree.new 2).applySplits
          [⟨0, 1, BinType.NumericalBin, 2, 3, 4, 5, 6, 7, 8, 9⟩]).num_leaves_ - 1) ∧
      t'.leaf_parent_ = ((Tree.new 2).applySplits
        [⟨0, 1, BinType.NumericalBin, 2, 3, 4, 5, 6, 7, 8, 9⟩]).leaf_parent_.take
        ((Tree.new 2).applySplits
          [⟨0, 1, BinType.NumericalBin, 2, 3, 4, 5, 6, 7, 8, 9⟩]).num_leaves_ ∧
      t'.leaf_value_ = ((Tree.new 2).applySplits
        [⟨0, 1, BinType.NumericalBin, 2, 3, 4, 5, 6, 7, 8, 9⟩]).leaf_value_.take
        ((Tree.new 2).applySplits
          [⟨0, 1, BinType.NumericalBin, 2, 3, 4, 5, 6, 7, 8, 9⟩]).num_leaves_ ∧
      t'.leaf_count_ = ((Tree.new 2).applySplits
        [⟨0, 1, BinType.NumericalBin, 2, 3, 4, 5, 6, 7, 8, 9⟩]).leaf_count_.take
        ((Tree.new 2).applySplits
          [⟨0, 1, BinType.NumericalBin, 2, 3, 4, 5, 6, 7, 8, 9⟩]).num_leaves_ ∧
      t'.internal_value_ = ((Tree.new 2).applySplits
        [⟨0, 1, BinType.NumericalBin, 2, 3, 4, 5, 6, 7, 8, 9⟩]).internal_value_.take
        (((Tree.new 2).applySplits
          [⟨0, 1, BinType.NumericalBin, 2, 3, 4, 5, 6, 7, 8, 9⟩]).num_leaves_ - 1) ∧
      t'.internal_count_ = ((Tree.new 2).applySplits
        [⟨0, 1, BinType.NumericalBin, 2, 3, 4, 5, 6, 7, 8, 9⟩]).internal_count_.take
        (((Tree.new 2).applySplits
          [⟨0, 1, BinType.NumericalBin, 2, 3, 4, 5, 6, 7, 8, 9⟩]).num_leaves_ - 1) :=
  serialize_roundtrip 2 [⟨0, 1, BinType.NumericalBin, 2, 3, 4, 5, 6, 7, 8, 9⟩]
    (by decide) (by decide)

/-- A line the parser skips silently: it does not split on `'='` into
exactly two parts, or its key or value is empty after trimming. -/
def malformedLine (line : List Char) : Bool :=
  !(decide ((splitFirstOn '=' line).length = 2) &&
    decide (trimChars ((splitFirstOn '=' line).getD 0 []) ≠ []) &&
    decide (trimChars ((splitFirstOn '=' line).getD 1 []) ≠ []))

lemma ingestLine_malformed (m : List (List Char × List Char))
    (line : List Char) (h : malformedLine line = true) :
    ingestLine m line = m := by
  unfold malformedLine at h
  unfold ingestLine
  by_cases hlen : (splitFirstOn '=' line).length = 2
  · by_cases hkv : trimChars ((splitFirstOn '=' line).getD 0 []) ≠ [] ∧
        trimChars ((splitFirstOn '=' line).getD 1 []) ≠ []
    · exfalso
      rw [Bool.not_eq_true'] at h
      simp only [Bool.and_eq_false_iff, decide_eq_false_iff_not] at h
      rcases h with (h | h) | h
      · exact h hlen
      · exact h hkv.1
      · exact h hkv.2
    · push_neg at hkv
      simp [hlen] at hkv ⊢
      exact hkv
  · simp [hlen]

lemma buildKeyVals_append_malformed (s mline : List Char)
    (h1 : '\n' ∉ mline) (h2 : malformedLine mline = true) :
    buildKeyVals (s ++ '\n' :: mline) = buildKeyVals s := by
  unfold buildKeyVals
  rw [splitOnChar_append_last '\n' s mline h1, List.foldl_append]
  show ingestLine _ mline = _
  rw [ingestLine_malformed _ mline h2]

/-- C7.  Deserialization error handling: loading serialized text fails
fatally (no tree is produced) precisely when at least one required key is
absent from the parsed key→value map; and appending one malformed line
(one that does not split on `'='` into two nonempty trimmed parts) to any
text leaves the load result unchanged — the line is silently skipped. -/
theorem deserialize_error_handling (s mline : List Char)
    (h1 : '\n' ∉ mline) (h2 : malformedLine mline = true) :
    (Tree.FromString s = none ↔
      ∃ k ∈ requiredKeys, lookupKV (buildKeyVals s) k = none) ∧
    Tree.FromString (s ++ '\n' :: mline) = Tree.FromString s := by
  constructor
  · have hsplit : Tree.FromString s = none ↔
        ¬ (requiredKeys.all fun k =>
          (lookupKV (buildKeyVals s) k).isSome) = true := by
      unfold Tree.FromString
      split
      · rename_i hc; simp [hc]
      · rename_i hc; simp [hc]
    rw [hsplit, List.all_eq_true]
    push_neg
    constructor
    · rintro ⟨k, hk, hns⟩
      exact ⟨k, hk, Option.not_isSome_iff_eq_none.mp (by simpa using hns)⟩
    · rintro ⟨k, hk, hnone⟩
      exact ⟨k, hk, by simp [hnone]⟩
  · unfold Tree.FromString
    rw [buildKeyVals_append_malformed s mline h1 h2]

/-- C7 witness: a successfully serialized two-leaf tree with one garbage
line (containing no `'='`) appended loads to the same result. -/
theorem deserialize_error_handling_witness :
    malformedLine "garbage line".toList = true ∧
    Tree.FromString
        (((Tree.new 2).Split 0 1 BinType.NumericalBin 2 3 4 5 6 7 8 9).1.ToString
          ++ '\n' :: "garbage line".toList) =
      Tree.FromString
        ((Tree.new 2).Split 0 1 BinType.NumericalBin 2 3 4 5 6 7 8 9).1.ToString :=
  ⟨by decide,
    (deserialize_error_handling
      ((Tree.new 2).Split 0 1 BinType.NumericalBin 2 3 4 5 6 7 8 9).1.ToString
      "garbage line".toList (by decide) (by decide)).2⟩

/-- C10.  Frame effect of deserialization: every tree produced by the
deserializing constructor has only the twelve persisted fields populated —
`leaf_depth_`, `threshold_in_bin_` and the binned `split_feature_` stay
empty and `max_leaves_` is not restored (it is never assigned; modelled as
0) — even though every freshly constructed tree has `leaf_depth_`
populated (length `max_leaves`, root depth 1). -/
theorem deserialize_frame_effect (s : List Char) (t' : Tree) (m : Nat)
    (hs : Tree.FromString s = some t') (hm : 1 ≤ m) :
    t'.leaf_depth_ = [] ∧ t'.threshold_in_bin_ = [] ∧
    t'.split_feature_ = [] ∧ t'.max_leaves_ = 0 ∧
    (Tree.new m).leaf_depth_.length = m ∧
    (Tree.new m).leaf_depth_.getD 0 0 = 1 := by
  have hfields : t'.leaf_depth_ = [] ∧ t'.threshold_in_bin_ = [] ∧
      t'.split_feature_ = [] ∧ t'.max_leaves_ = 0 := by
    unfold Tree.FromString at hs
    split at hs
    · have hrec := Option.some.inj hs
      rw [← hrec]
      exact ⟨rfl, rfl, rfl, rfl⟩
    · exact absurd hs (by simp)
  refine ⟨hfields.1, hfields.2.1, hfields.2.2.1, hfields.2.2.2, ?_, ?_⟩
  · simp [Tree.new]
  · refine getD_set_self ?_
    simp
    omega

/-- C10 witness: the round trip of a concretely built two-leaf tree loses
`leaf_depth_`, `threshold_in_bin_`, the binned `split_feature_` and
`max_leaves_`. -/
theorem deserialize_frame_effect_witness :
    ((Tree.FromString
        ((Tree.new 2).Split 0 1 BinType.NumericalBin 2 3 4 5 6 7 8 9).1.ToString).getD
      (Tree.new 0)).leaf_depth_ = [] ∧
    ((Tree.FromString
        ((Tree.new 2).Split 0 1 BinType.NumericalBin 2 3 4 5 6 7 8 9).1.ToString).getD
      (Tree.new 0)).threshold_in_bin_ = [] ∧
    ((Tree.FromString
        ((Tree.new 2).Split 0 1 BinType.NumericalBin 2 3 4 5 6 7 8 9).1.ToString).getD
      (Tree.new 0)).split_feature_ = [] ∧
    ((Tree.FromString
        ((Tree.new 2).Split 0 1 BinType.NumericalBin 2 3 4 5 6 7 8 9).1.ToString).getD
      (Tree.new 0)).max_leaves_ = 0 ∧
    (Tree.new 2).leaf_depth_.length = 2 ∧
    (Tree.new 2).leaf_depth_.getD 0 0 = 1 :=
  deserialize_frame_effect
    ((Tree.new 2).Split 0 1 BinType.NumericalBin 2 3 4 5 6 7 8 9).1.ToString
    _ 2 (by decide) (by decide)

end LightGBM
